import Mathlib

/-!
# Verification of the Tarot_Robot job-dispatch and RPC-bridge core

A shallow embedding, in Lean 4, of the asynchronous job-dispatch layer of
the Tarot_Robot repository:

* `local_web.py` — the HTTP front door: submission validation
  (`_validate_submit`), the in-memory job table (`JOBS`), time-based
  eviction (`_cleanup_jobs`), the background worker (`run_tarot_job`),
  and the RPC client (`rpc_call_tarot` / `_recvall`).
* `rpc_server.py` — the framed RPC transport (`recvall`, `recv_msg`,
  `send_msg`) and the per-connection handler (`handle_client`).
* `llm_ask.py` — the worker-side serialization guard (`_GENERATE_LOCK`
  around `model.generate` in `generate_response_qwen`).

Python strings are modelled as lists of Unicode code points (`PyStr`),
bytes as lists of naturals below 256, JSON values as an explicit syntax
tree, and the stdlib `json.dumps` / `json.loads` / `str.encode("utf-8")`
/ `bytes.decode("utf-8")` pipeline as executable Lean functions faithful
to their documented behaviour on the value shapes this program exchanges
(null, booleans, integers, strings, arrays, string-keyed objects).
Concurrency-sensitive properties (the generate lock, the job-status
lifecycle) are settled over explicit labelled transition systems whose
steps are the lock/store operations the source performs.
-/

/-- A Python `str`, modelled as its sequence of Unicode code points. -/
abbrev PyStr := List Nat

/-- A Python `bytes` value, modelled as its sequence of byte values. -/
abbrev PyBytes := List Nat

/-- Code points of a Lean string literal, used to transcribe the string
constants appearing in the Python source. -/
def str2cp (s : String) : PyStr := s.data.map (fun c => c.toNat)

/-- The Unicode code points Python's `str.isspace` (and hence the
no-argument `str.strip()`) treats as whitespace. -/
def isPySpace (c : Nat) : Bool :=
  decide (c ∈ ([9, 10, 11, 12, 13, 28, 29, 30, 31, 32, 133, 160, 0x1680,
    0x2000, 0x2001, 0x2002, 0x2003, 0x2004, 0x2005, 0x2006, 0x2007,
    0x2008, 0x2009, 0x200A, 0x2028, 0x2029, 0x202F, 0x205F, 0x3000] : List Nat))

/-- Python's `str.strip()` with no arguments: remove leading and trailing
whitespace code points. -/
def pyStrip (s : PyStr) : PyStr :=
  ((s.dropWhile isPySpace).reverse.dropWhile isPySpace).reverse

/-- `ALLOWED_MODES = {"general", "love", "career", "money"}`, the mode
whitelist shared by `local_web.py` and `rpc_server.py`. -/
def ALLOWED_MODES : List PyStr :=
  [str2cp "general", str2cp "love", str2cp "career", str2cp "money"]

/-- A submission body as the front door sees it after `json.loads`: the
three fields of interest, each `none` when the key is absent.  A field's
value is the code-point sequence of `str(...)` of the JSON value stored
under that key, matching the `str(payload.get(k, ""))` coercions in
`_validate_submit` and the server-side `handle_client`. -/
structure SubmitPayload where
  mode : Option PyStr
  question : Option PyStr
  information : Option PyStr

deriving DecidableEq

/-- `payload.get(k, "")` for one of the three fields. -/
def fieldOr (f : Option PyStr) : PyStr := f.getD []

/-- `_validate_submit` from `local_web.py`: strip the three fields, then
check the mode whitelist, the question length lower bound 3, and the
upper bounds 5000 on question and information.  Returns `(ok, err)`. -/
def _validate_submit (payload : SubmitPayload) : Bool × PyStr :=
  let mode := pyStrip (fieldOr payload.mode)
  let question := pyStrip (fieldOr payload.question)
  let information := pyStrip (fieldOr payload.information)
  if mode ∉ ALLOWED_MODES then
    (false, str2cp "mode must be one of: general/love/career/money")
  else if question.length < 3 then
    (false, str2cp "question too short")
  else if question.length > 5000 ∨ information.length > 5000 then
    (false, str2cp "text too long")
  else
    (true, [])

/-- The `clean_payload` built in `Handler.do_POST` after validation: the
three fields stripped.  It is what the job record stores and what
`rpc_call_tarot` serializes to the worker. -/
structure CleanPayload where
  mode : PyStr
  question : PyStr
  information : PyStr

deriving DecidableEq

/-- `{"mode": str(payload["mode"]).strip(), "question": ..., "information":
str(payload.get("information", "")).strip()}` from `Handler.do_POST`. -/
def mkCleanPayload (payload : SubmitPayload) : CleanPayload :=
  { mode := pyStrip (fieldOr payload.mode)
    question := pyStrip (fieldOr payload.question)
    information := pyStrip (fieldOr payload.information) }

/-! ## JSON values

The messages both processes exchange are built by `json.dumps(...,
ensure_ascii=False).encode("utf-8")` and recovered by
`json.loads(raw.decode("utf-8"))`.  `Json` is the value space actually
exercised by the program: null, booleans, integers, strings, arrays, and
string-keyed objects (an object keeps its key order, as CPython dicts
do).  `JsonList`/`JsonMembers` are inlined lists so that structural
recursion over the tree stays elementary. -/
mutual
inductive Json where
  | null : Json
  | bool (b : Bool) : Json
  | int (n : Int) : Json
  | str (s : PyStr) : Json
  | arr (xs : JsonList) : Json
  | obj (kvs : JsonMembers) : Json
inductive JsonList where
  | nil : JsonList
  | cons (hd : Json) (tl : JsonList) : JsonList
inductive JsonMembers where
  | nil : JsonMembers
  | cons (k : PyStr) (v : Json) (tl : JsonMembers) : JsonMembers
end

deriving instance DecidableEq for Json

deriving instance DecidableEq for JsonList

deriving instance DecidableEq for JsonMembers

/-- Decimal digits of a positive natural, most significant first, as code
points; the fuel argument (any value `≥ n`) only forces termination. -/
def natPrintAux : Nat → Nat → PyStr
  | 0, _ => []
  | fuel + 1, n =>
    if n < 10 then [48 + n]
    else natPrintAux fuel (n / 10) ++ [48 + n % 10]

/-- Decimal rendering of a natural number, as `repr` / `json.dumps` emit
it. -/
def natPrint (n : Nat) : PyStr := if n = 0 then [48] else natPrintAux n n

/-- Decimal rendering of an integer. -/
def intPrint (i : Int) : PyStr :=
  if i < 0 then 45 :: natPrint i.natAbs else natPrint i.natAbs

/-- Lowercase hexadecimal digit, as `'\u%04x' % c` produces. -/
def hexDig (d : Nat) : Nat := if d < 10 then 48 + d else 87 + d

/-- How `json.dumps(..., ensure_ascii=False)` renders one character
inside a string literal: escape the quote, the backslash, the five
short-escape control characters, and remaining control characters as
`\u00xx`; everything else passes through verbatim. -/
def escChar (c : Nat) : PyStr :=
  if c = 34 then [92, 34]
  else if c = 92 then [92, 92]
  else if c = 8 then [92, 98]
  else if c = 9 then [92, 116]
  else if c = 10 then [92, 110]
  else if c = 12 then [92, 102]
  else if c = 13 then [92, 114]
  else if c < 32 then [92, 117, 48, 48, hexDig (c / 16), hexDig (c % 16)]
  else [c]

/-- Escape every character of a string body. -/
def escStr : PyStr → PyStr
  | [] => []
  | c :: cs => escChar c ++ escStr cs

mutual
/-- `json.dumps(obj, ensure_ascii=False)` with the default separators
`(", ", ": ")`, as code points. -/
def printJson : Json → PyStr
  | .null => str2cp "null"
  | .bool true => str2cp "true"
  | .bool false => str2cp "false"
  | .int n => intPrint n
  | .str s => 34 :: (escStr s ++ [34])
  | .arr xs => 91 :: (printElems xs ++ [93])
  | .obj kvs => 123 :: (printMembers kvs ++ [125])
termination_by structural j => j
/-- Array elements joined by `", "`. -/
def printElems : JsonList → PyStr
  | .nil => []
  | .cons x .nil => printJson x
  | .cons x (.cons y tl) => printJson x ++ (44 :: 32 :: printElems (.cons y tl))
termination_by structural l => l
/-- Object members (each a `"key": value` pair) joined by `", "`. -/
def printMembers : JsonMembers → PyStr
  | .nil => []
  | .cons k v .nil => 34 :: (escStr k ++ (34 :: 58 :: 32 :: printJson v))
  | .cons k v (.cons k2 v2 tl) =>
      (34 :: (escStr k ++ (34 :: 58 :: 32 :: printJson v))) ++
        (44 :: 32 :: printMembers (.cons k2 v2 tl))
termination_by structural m => m
end

/-- One `"key": value` member, as `printMembers` renders it. -/
def printMember (k : PyStr) (v : Json) : PyStr :=
  34 :: (escStr k ++ (34 :: 58 :: 32 :: printJson v))

mutual
/-- Fuel needed by the recursive-descent parser on a printed value. -/
def jsize : Json → Nat
  | .null => 1
  | .bool _ => 1
  | .int _ => 1
  | .str _ => 1
  | .arr xs => 1 + lsize xs
  | .obj kvs => 1 + msize kvs
termination_by structural j => j
def lsize : JsonList → Nat
  | .nil => 1
  | .cons x tl => 1 + jsize x + lsize tl
termination_by structural l => l
def msize : JsonMembers → Nat
  | .nil => 1
  | .cons _ v tl => 1 + jsize v + msize tl
termination_by structural m => m
end

/-- A Unicode scalar value: encodable in UTF-8 (surrogates excluded). -/
def scalarB (c : Nat) : Bool := c < 0xD800 || (0xE000 ≤ c && c < 0x110000)

mutual
/-- Every string in the tree consists of Unicode scalar values, so the
whole document survives `encode("utf-8")` / `decode("utf-8")`. -/
def jvalid : Json → Bool
  | .null => true
  | .bool _ => true
  | .int _ => true
  | .str s => s.all scalarB
  | .arr xs => lvalid xs
  | .obj kvs => mvalid kvs
termination_by structural j => j
def lvalid : JsonList → Bool
  | .nil => true
  | .cons x tl => jvalid x && lvalid tl
termination_by structural l => l
def mvalid : JsonMembers → Bool
  | .nil => true
  | .cons k v tl => k.all scalarB && (jvalid v && mvalid tl)
termination_by structural m => m
end

/-! ## JSON parsing (`json.loads`)

A recursive-descent parser over code points, faithful to `json.loads` on
the grammar fragment the program exchanges: JSON whitespace skipping,
the `null` / `true` / `false` literals, integers, strings with the
standard escapes (including `\uXXXX`), arrays and objects with no
trailing commas, and strict rejection of unescaped control characters.
The parser is fueled; `loads` supplies fuel that provably suffices. -/
/-- An ASCII decimal digit. -/
def isDigitCP (c : Nat) : Bool := 48 ≤ c && c ≤ 57

/-- JSON insignificant whitespace (space, tab, newline, carriage
return). -/
def isJsonWs (c : Nat) : Bool := c = 32 || c = 9 || c = 10 || c = 13

/-- Skip insignificant whitespace. -/
def skipWs (s : PyStr) : PyStr := s.dropWhile isJsonWs

/-- Value of a run of decimal digit code points, most significant
first. -/
def digitsToNat (ds : PyStr) : Nat := ds.foldl (fun a c => a * 10 + (c - 48)) 0

/-- Parse a nonempty run of decimal digits. -/
def parseDigits (s : PyStr) : Option (Nat × PyStr) :=
  if (s.takeWhile isDigitCP).isEmpty then none
  else some (digitsToNat (s.takeWhile isDigitCP), s.dropWhile isDigitCP)

/-- Parse an optionally negated integer literal. -/
def parseNumber : PyStr → Option (Json × PyStr)
  | [] => none
  | c :: rest =>
    if c = 45 then (parseDigits rest).map (fun p => (Json.int (-(p.1 : Int)), p.2))
    else (parseDigits (c :: rest)).map (fun p => (Json.int (p.1 : Int), p.2))

/-- Value of one hexadecimal digit code point. -/
def hexVal (c : Nat) : Option Nat :=
  if 48 ≤ c && c ≤ 57 then some (c - 48)
  else if 97 ≤ c && c ≤ 102 then some (c - 87)
  else if 65 ≤ c && c ≤ 70 then some (c - 55)
  else none

/-- Parse a string body, positioned just after the opening quote, up to
and including the closing quote: standard JSON escapes, `\uXXXX`, and
verbatim non-control characters. -/
def parseStringBody : PyStr → Option (PyStr × PyStr)
  | [] => none
  | c :: rest =>
    if c = 34 then some ([], rest)
    else if c = 92 then
      match rest with
      | [] => none
      | e :: r =>
        if e = 34 then (parseStringBody r).map (fun p => (34 :: p.1, p.2))
        else if e = 92 then (parseStringBody r).map (fun p => (92 :: p.1, p.2))
        else if e = 47 then (parseStringBody r).map (fun p => (47 :: p.1, p.2))
        else if e = 98 then (parseStringBody r).map (fun p => (8 :: p.1, p.2))
        else if e = 102 then (parseStringBody r).map (fun p => (12 :: p.1, p.2))
        else if e = 110 then (parseStringBody r).map (fun p => (10 :: p.1, p.2))
        else if e = 114 then (parseStringBody r).map (fun p => (13 :: p.1, p.2))
        else if e = 116 then (parseStringBody r).map (fun p => (9 :: p.1, p.2))
        else if e = 117 then
          match r with
          | h1 :: h2 :: h3 :: h4 :: r2 =>
            match hexVal h1, hexVal h2, hexVal h3, hexVal h4 with
            | some a, some b, some d3, some d4 =>
              (parseStringBody r2).map
                (fun p => ((((a * 16 + b) * 16 + d3) * 16 + d4) :: p.1, p.2))
            | _, _, _, _ => none
          | _ => none
        else none
    else if c < 32 then none
    else (parseStringBody rest).map (fun p => (c :: p.1, p.2))

mutual
/-- Fueled recursive-descent parse of one JSON value, whitespace
skipped, starting from the first significant character. -/
def parseVal : Nat → PyStr → Option (Json × PyStr)
  | 0, _ => none
  | fuel + 1, s =>
    match skipWs s with
    | [] => none
    | c :: r =>
      if c = 45 || isDigitCP c then parseNumber (c :: r)
      else if c = 34 then (parseStringBody r).map (fun p => (Json.str p.1, p.2))
      else if c = 91 then
        match skipWs r with
        | [] => none
        | c2 :: r2 =>
          if c2 = 93 then some (Json.arr .nil, r2)
          else (parseElemsNE fuel (c2 :: r2)).map (fun p => (Json.arr p.1, p.2))
      else if c = 123 then
        match skipWs r with
        | [] => none
        | c2 :: r2 =>
          if c2 = 125 then some (Json.obj .nil, r2)
          else (parseMembersNE fuel (c2 :: r2)).map (fun p => (Json.obj p.1, p.2))
      else if c = 110 then
        match r with
        | 117 :: 108 :: 108 :: r2 => some (Json.null, r2)
        | _ => none
      else if c = 116 then
        match r with
        | 114 :: 117 :: 101 :: r2 => some (Json.bool true, r2)
        | _ => none
      else if c = 102 then
        match r with
        | 97 :: 108 :: 115 :: 101 :: r2 => some (Json.bool false, r2)
        | _ => none
      else none
/-- Parse a nonempty comma-separated element list and the closing
bracket. -/
def parseElemsNE : Nat → PyStr → Option (JsonList × PyStr)
  | 0, _ => none
  | fuel + 1, s =>
    match parseVal fuel s with
    | none => none
    | some (v, r) =>
      match skipWs r with
      | 44 :: r2 =>
        match parseElemsNE fuel (skipWs r2) with
        | some (tl, r3) => some (JsonList.cons v tl, r3)
        | none => none
      | 93 :: r2 => some (JsonList.cons v .nil, r2)
      | _ => none
/-- Parse a nonempty comma-separated member list and the closing
brace. -/
def parseMembersNE : Nat → PyStr → Option (JsonMembers × PyStr)
  | 0, _ => none
  | fuel + 1, s =>
    match skipWs s with
    | 34 :: r =>
      match parseStringBody r with
      | none => none
      | some (k, r2) =>
        match skipWs r2 with
        | 58 :: r3 =>
          match parseVal fuel (skipWs r3) with
          | none => none
          | some (v, r4) =>
            match skipWs r4 with
            | 44 :: r5 =>
              match parseMembersNE fuel (skipWs r5) with
              | some (tl, r6) => some (JsonMembers.cons k v tl, r6)
              | none => none
            | 125 :: r5 => some (JsonMembers.cons k v .nil, r5)
            | _ => none
        | _ => none
    | _ => none
end

deriving instance DecidableEq for Except

/-- `json.loads`: parse one document, then require only whitespace to
remain; otherwise fail (as `json.loads` raises `JSONDecodeError`). -/
def loads (s : PyStr) : Except PyStr Json :=
  match parseVal (2 * s.length + 2) s with
  | some (j, rem) => if skipWs rem = [] then .ok j else .error (str2cp "Extra data")
  | none => .error (str2cp "Expecting value")

/-! ## Round trip of the printer and parser -/
/-- The continuation after a printed value never starts with a digit, so
the number parser stops exactly at the value boundary. -/
def noDigitHead : PyStr → Prop
  | [] => True
  | c :: _ => isDigitCP c = false

/-! ## UTF-8 (`str.encode("utf-8")` / `bytes.decode("utf-8")`) -/
/-- UTF-8 encoding of one Unicode scalar value. -/
def utf8EncodeChar (c : Nat) : PyBytes :=
  if c < 0x80 then [c]
  else if c < 0x800 then [0xC0 + c / 64, 0x80 + c % 64]
  else if c < 0x10000 then [0xE0 + c / 4096, 0x80 + (c / 64) % 64, 0x80 + c % 64]
  else [0xF0 + c / 262144, 0x80 + (c / 4096) % 64, 0x80 + (c / 64) % 64, 0x80 + c % 64]

/-- `str.encode("utf-8")`. -/
def utf8Encode : PyStr → PyBytes
  | [] => []
  | c :: cs => utf8EncodeChar c ++ utf8Encode cs

/-- A UTF-8 continuation byte. -/
def utf8Cont (c : Nat) : Bool := 0x80 ≤ c && c < 0xC0

mutual
/-- `bytes.decode("utf-8")`, strict: fails on stray or missing
continuation bytes, overlong encodings, surrogates, and out-of-range
code points. -/
def utf8Decode : PyBytes → Option PyStr
  | [] => some []
  | b :: rest =>
    if b < 0x80 then (utf8Decode rest).map (fun s => b :: s)
    else if b < 0xC0 then none
    else if b < 0xE0 then utf8D2 b rest
    else if b < 0xF0 then utf8D3 b rest
    else if b < 0xF8 then utf8D4 b rest
    else none
termination_by structural s => s
/-- Continuation of a two-byte sequence. -/
def utf8D2 : Nat → PyBytes → Option PyStr
  | b, c1 :: r =>
    if utf8Cont c1 then
      if 0x80 ≤ (b - 0xC0) * 64 + (c1 - 0x80) then
        (utf8Decode r).map (fun s => ((b - 0xC0) * 64 + (c1 - 0x80)) :: s)
      else none
    else none
  | _, [] => none
termination_by structural _b s => s
/-- Continuation of a three-byte sequence. -/
def utf8D3 : Nat → PyBytes → Option PyStr
  | b, c1 :: c2 :: r =>
    if utf8Cont c1 && utf8Cont c2 then
      if 0x800 ≤ (b - 0xE0) * 4096 + (c1 - 0x80) * 64 + (c2 - 0x80) &&
          ¬(0xD800 ≤ (b - 0xE0) * 4096 + (c1 - 0x80) * 64 + (c2 - 0x80) &&
            (b - 0xE0) * 4096 + (c1 - 0x80) * 64 + (c2 - 0x80) < 0xE000) then
        (utf8Decode r).map
          (fun s => ((b - 0xE0) * 4096 + (c1 - 0x80) * 64 + (c2 - 0x80)) :: s)
      else none
    else none
  | _, _ => none
termination_by structural _b s => s
/-- Continuation of a four-byte sequence. -/
def utf8D4 : Nat → PyBytes → Option PyStr
  | b, c1 :: c2 :: c3 :: r =>
    if utf8Cont c1 && (utf8Cont c2 && utf8Cont c3) then
      if 0x10000 ≤ (b - 0xF0) * 262144 + (c1 - 0x80) * 4096 +
            (c2 - 0x80) * 64 + (c3 - 0x80) &&
          (b - 0xF0) * 262144 + (c1 - 0x80) * 4096 +
            (c2 - 0x80) * 64 + (c3 - 0x80) < 0x110000 then
        (utf8Decode r).map
          (fun s => ((b - 0xF0) * 262144 + (c1 - 0x80) * 4096 +
            (c2 - 0x80) * 64 + (c3 - 0x80)) :: s)
      else none
    else none
  | _, _ => none
termination_by structural _b s => s
end

/-! ## Framed transport (`rpc_server.py`, duplicated in `local_web.py`)

A socket is modelled by the byte sequence it will deliver before the
peer closes the connection.  `recvall` loops on partial reads until `n`
bytes have accumulated; over a stream delivering `stream` it therefore
returns the first `n` bytes, or raises `ConnectionError("socket
closed")` when `recv` returns `b""` first — that is, when fewer than `n`
bytes remain. -/
/-- `recvall(conn, n)` from `rpc_server.py`. -/
def recvall (stream : PyBytes) (n : Nat) : Except PyStr PyBytes :=
  if n ≤ stream.length then .ok (stream.take n)
  else .error (str2cp "socket closed")

/-- `_recvall(conn, n)` from `local_web.py` — a verbatim copy of
`recvall`. -/
def _recvall (stream : PyBytes) (n : Nat) : Except PyStr PyBytes :=
  if n ≤ stream.length then .ok (stream.take n)
  else .error (str2cp "socket closed")

/-- `struct.pack("!I", n)` for `n < 2^32`: 4 bytes, big-endian. -/
def packBE32 (n : Nat) : PyBytes :=
  [n / 2 ^ 24 % 256, n / 2 ^ 16 % 256, n / 2 ^ 8 % 256, n % 256]

/-- `struct.unpack("!I", b)[0]` on a 4-byte big-endian string. -/
def unpackBE32 (b : PyBytes) : Nat := b.foldl (fun a c => a * 256 + c) 0

/-- `json.dumps(obj, ensure_ascii=False).encode("utf-8")`. -/
def dumpsBytes (obj : Json) : PyBytes := utf8Encode (printJson obj)

/-- `send_msg(conn, obj)` from `rpc_server.py` (and the send side of
`rpc_call_tarot` in `local_web.py`): the 4-byte big-endian length of the
UTF-8 JSON body, then the body, written as one unit.  `struct.pack("!I",
...)` raises `struct.error` for lengths not representable in 32 bits,
hence the `Option`. -/
def send_msg (obj : Json) : Option PyBytes :=
  if (dumpsBytes obj).length < 2 ^ 32 then
    some (packBE32 (dumpsBytes obj).length ++ dumpsBytes obj)
  else none

/-- `recv_msg(conn)` from `rpc_server.py` (and the receive side of
`rpc_call_tarot` in `local_web.py`): read exactly 4 bytes, unpack the
big-endian length, read exactly that many bytes, decode UTF-8, parse
JSON.  Each failure (truncation, bad UTF-8, bad JSON) raises, modelled
as `Except.error`. -/
def recv_msg (stream : PyBytes) : Except PyStr Json :=
  match recvall stream 4 with
  | .error e => .error e
  | .ok raw_len =>
    match recvall (stream.drop 4) (unpackBE32 raw_len) with
    | .error e => .error e
    | .ok raw =>
      match utf8Decode raw with
      | none => .error (str2cp "unicode decode error")
      | some s => loads s

/-! ## The RPC server connection handler (`rpc_server.py`) -/
/-- A Python exception as the handler observes it: the type name
(`type(e).__name__`) and the message (`str(e)`). -/
structure PyExc where
  kind : PyStr
  msg : PyStr

deriving DecidableEq

/-- `f"{type(e).__name__}: {e}"`. -/
def excText (e : PyExc) : PyStr := e.kind ++ str2cp ": " ++ e.msg

/-- `{"ok": False, "error": t}`. -/
def errorResponse (t : PyStr) : Json :=
  Json.obj (.cons (str2cp "ok") (.bool false)
    (.cons (str2cp "error") (.str t) .nil))

/-- A request frame's three fields after `str(req.get(k, "")).strip()`;
`none` models an absent key (defaulted to `""` by `.get`), and a present
value is the `str(...)` coercion of whatever JSON value the key held. -/
structure RpcRequest where
  mode : Option PyStr
  question : Option PyStr
  information : Option PyStr

deriving DecidableEq

/-- First binding of a key in an object, as CPython dict lookup. -/
def jGet : JsonMembers → PyStr → Option Json
  | .nil, _ => none
  | .cons k v tl, key => if k = key then some v else jGet tl key

/-- `d.get(key)`, i.e. `None` when absent. -/
def jGetD (m : JsonMembers) (key : PyStr) : Json := (jGet m key).getD Json.null

/-- Python truthiness of a JSON value. -/
def jTruthy : Json → Bool
  | .null => false
  | .bool b => b
  | .int n => n != 0
  | .str s => !s.isEmpty
  | .arr xs => xs != JsonList.nil
  | .obj m => m != JsonMembers.nil

/-- Replace the value under the first occurrence of a key, appending the
binding if absent — CPython `d[key] = v`. -/
def jSet : JsonMembers → PyStr → Json → JsonMembers
  | .nil, key, v => .cons key v .nil
  | .cons k v0 tl, key, v =>
    if k = key then .cons k v tl else .cons k v0 (jSet tl key v)

/-- The card slimming in `handle_client`: keep only the six listed
fields of each card (the model assumes, as `ask_tarot` guarantees, that
each card value is an object). -/
def slimCard (c : Json) : Json :=
  match c with
  | .obj m =>
    Json.obj (.cons (str2cp "number") (jGetD m (str2cp "number"))
      (.cons (str2cp "orientation") (jGetD m (str2cp "orientation"))
        (.cons (str2cp "id") (jGetD m (str2cp "id"))
          (.cons (str2cp "name_zh") (jGetD m (str2cp "name_zh"))
            (.cons (str2cp "name_en") (jGetD m (str2cp "name_en"))
              (.cons (str2cp "arcana") (jGetD m (str2cp "arcana")) .nil))))))
  | other => other

/-- Slim every role's card. -/
def slimCards : JsonMembers → JsonMembers
  | .nil => .nil
  | .cons role c tl => .cons role (slimCard c) (slimCards tl)

/-- The `if result.get("ok"): ... result["cards"] = slim_cards` block of
`handle_client`: on a truthy `ok`, replace the `cards` object by its
slimmed form (`result.get("cards") or {}` treats a falsy or absent value
as the empty dict); otherwise the result passes through unchanged. -/
def slimResponse (result : Json) : Json :=
  match result with
  | .obj m =>
    if jTruthy (jGetD m (str2cp "ok")) then
      let cardsM := match jGetD m (str2cp "cards") with
        | .obj cm => cm
        | _ => JsonMembers.nil
      Json.obj (jSet m (str2cp "cards") (Json.obj (slimCards cardsM)))
    else result
  | other => other

/-- What one `handle_client` invocation did. -/
structure HandlerResult where
  sent : Option Json
  collaboratorCalled : Bool
  connClosed : Bool

deriving DecidableEq

/-- `handle_client(conn, addr)` from `rpc_server.py`, as a function of
this connection's two effectful inputs: the outcome of `recv_msg`
(`.error` when it raises) and the outcome the Inference Collaborator
`ask_tarot` would produce if invoked (`.error e` when it would raise
`e`).  `sent` is the single response frame passed to `send_msg`; the
`try/except` converts any exception into an `{ok:false, error:
"<kind>: <message>"}` response, and the `finally` closes the connection
on every path. -/
def handle_client (req : Except PyExc RpcRequest) (infer : Except PyExc Json) :
    HandlerResult :=
  let body : Option Json × Bool :=
    match req with
    | .error e => (some (errorResponse (excText e)), false)
    | .ok r =>
      let mode := pyStrip (fieldOr r.mode)
      let question := pyStrip (fieldOr r.question)
      if mode ∉ ALLOWED_MODES then
        (some (errorResponse (str2cp "bad mode")), false)
      else if question.length < 3 then
        (some (errorResponse (str2cp "question too short")), false)
      else
        match infer with
        | .ok result => (some (slimResponse result), true)
        | .error e => (some (errorResponse (excText e)), true)
  { sent := body.1, collaboratorCalled := body.2, connClosed := true }

/-! ## The worker-side serialization guard (`llm_ask.py`)

`generate_response_qwen` wraps the single `model.generate` call in
`with _GENERATE_LOCK:`.  A worker process serving `n` concurrent RPC
connections is modelled as `n` threads, each of which must acquire the
one `_GENERATE_LOCK` to enter its generate call and releases it on exit;
`threading.Lock` blocks an acquirer while the lock is held. -/
/-- Where one connection-handling thread is relative to the guarded
`model.generate` call. -/
inductive GPhase where
  | beforeLock
  | generating
  | finished

deriving DecidableEq

/-- The worker process: the `_GENERATE_LOCK` state and each thread's
phase (threads indexed by natural numbers; a process serving `n`
connections is one in which only threads `0..n-1` ever step). -/
structure WorkerState where
  lockHeld : Bool
  threads : Nat → GPhase

/-- All connection threads created, none yet inside `with
_GENERATE_LOCK`. -/
def initWorker : WorkerState :=
  { lockHeld := false, threads := fun _ => .beforeLock }

/-- Interleaved execution: a thread can enter the `with _GENERATE_LOCK`
block only when the lock is free (acquiring it), and leaving the block
releases the lock. -/
inductive WStep : WorkerState → WorkerState → Prop
  | acquire (i : Nat) (s : WorkerState)
      (h : s.threads i = .beforeLock) (hl : s.lockHeld = false) :
      WStep s { lockHeld := true,
                threads := fun t => if t = i then .generating else s.threads t }
  | release (i : Nat) (s : WorkerState)
      (h : s.threads i = .generating) :
      WStep s { lockHeld := false,
                threads := fun t => if t = i then .finished else s.threads t }

/-- States the worker process can reach from `initWorker`. -/
inductive WReach : WorkerState → Prop
  | init : WReach initWorker
  | step {s t : WorkerState} : WReach s → WStep s t → WReach t

/-- The inductive invariant: a free lock means nobody is generating, and
at most one thread is generating at any time. -/
def WInv (s : WorkerState) : Prop :=
  (s.lockHeld = false → ∀ i : Nat, s.threads i ≠ .generating) ∧
  (∀ i j : Nat, s.threads i = .generating → s.threads j = .generating → i = j)

/-! ## The front door (`local_web.py`): job store, submission, worker

The `JOBS` dict is modelled as a map from job ids to records; job ids
are natural numbers standing for the `uuid4().hex` tokens, which are
never reused (fresh ids are drawn from a counter).  Timestamps
(`time.time()` floats) are modelled as integers; only their ordering and
differences matter to the code. -/
/-- A job's lifecycle state. -/
inductive JobStatus where
  | pending
  | running
  | done

deriving DecidableEq

/-- One record of the `JOBS` table, as built in `Handler.do_POST` and
mutated in `run_tarot_job`. -/
structure Job where
  status : JobStatus
  payload : CleanPayload
  result : Option Json
  created_at : Int
  started_at : Option Int
  finished_at : Option Int

deriving DecidableEq

/-- The `JOBS` table. -/
def JobsMap := Nat → Option Job

/-- `_cleanup_jobs(now, ttl_seconds)`: drop every record whose age
`now - created_at` strictly exceeds `ttl_seconds`; every other record
survives unchanged. -/
def _cleanup_jobs (jobs : JobsMap) (now : Int) (ttl_seconds : Int) : JobsMap :=
  fun id =>
    match jobs id with
    | some j => if now - j.created_at > ttl_seconds then none else some j
    | none => none

/-- The fresh `pending` record inserted by `Handler.do_POST`. -/
def newJob (payload : CleanPayload) (now : Int) : Job :=
  { status := .pending, payload := payload, result := none,
    created_at := now, started_at := none, finished_at := none }

/-- An HTTP response as `send_json` emits it: status code and JSON
body. -/
structure HttpResponse where
  statusCode : Nat
  body : Json

deriving DecidableEq

/-- What one `POST /api/submit` request did: the response, the table
afterwards, and the job id handed to the spawned `run_tarot_job` thread
(if one was spawned). -/
structure PostOutcome where
  response : HttpResponse
  jobs : JobsMap
  spawned : Option Nat

/-- `Handler.do_POST` on `/api/submit`, after the request body has been
parsed into `payload`: validate; on failure answer
`400 {ok:false, error}` touching nothing; on success build the stripped
`clean_payload`, evict expired records, insert the new `pending` record
under the fresh `job_id`, spawn `run_tarot_job(job_id)`, and answer
`200 {ok:true, job_id}`. -/
def do_POST (jobs : JobsMap) (payload : SubmitPayload) (job_id : Nat) (now : Int) :
    PostOutcome :=
  let v := _validate_submit payload
  if v.1 = false then
    { response := { statusCode := 400, body := errorResponse v.2 }
      jobs := jobs
      spawned := none }
  else
    let clean_payload := mkCleanPayload payload
    let jobs1 := _cleanup_jobs jobs now 3600
    { response :=
        { statusCode := 200
          body := Json.obj (.cons (str2cp "ok") (.bool true)
            (.cons (str2cp "job_id") (.str (natPrint job_id)) .nil)) }
      jobs := fun id => if id = job_id then some (newJob clean_payload now) else jobs1 id
      spawned := some job_id }

/-- `make_safe_job`: the read-only projection served by
`GET /api/job/{id}`. -/
def statusStr : JobStatus → PyStr
  | .pending => str2cp "pending"
  | .running => str2cp "running"
  | .done => str2cp "done"

/-- First phase of `run_tarot_job`, under the lock: look the job up; if
it is gone, stop; otherwise take its payload and mark it `running`. -/
def run_tarot_job_phase1 (jobs : JobsMap) (job_id : Nat) (t1 : Int) :
    JobsMap × Option CleanPayload :=
  match jobs job_id with
  | none => (jobs, none)
  | some job =>
    (fun id => if id = job_id then
        some { job with status := .running, started_at := some t1 }
      else jobs id,
     some job.payload)

/-- The `except` branch of `run_tarot_job`:
`{"ok": False, "error": f"rpc failed: {type(e).__name__}: {e}"}`. -/
def rpcFailureResult (e : PyExc) : Json :=
  errorResponse (str2cp "rpc failed: " ++ excText e)

/-- Second phase of `run_tarot_job`, under the lock again: if the job
still exists, mark it `done` and attach the result. -/
def run_tarot_job_phase2 (jobs : JobsMap) (job_id : Nat) (result : Json) (t2 : Int) :
    JobsMap :=
  match jobs job_id with
  | none => jobs
  | some job2 =>
    fun id => if id = job_id then
        some { job2 with status := .done, result := some result, finished_at := some t2 }
      else jobs id

/-- `run_tarot_job(job_id)` run to completion by its own thread: mark
running, make the one RPC call (whose outcome — a response, or any
raised exception — is the `rpc` parameter), and mark done with either
the response or the synthesized `rpc failed` error object.  The function
is total: every exception from `rpc_call_tarot` is caught. -/
def run_tarot_job (jobs : JobsMap) (job_id : Nat) (rpc : Except PyExc Json)
    (t1 t2 : Int) : JobsMap :=
  let step1 := run_tarot_job_phase1 jobs job_id t1
  match step1.2 with
  | none => step1.1
  | some _payload =>
    let result := match rpc with
      | .ok r => r
      | .error e => rpcFailureResult e
    run_tarot_job_phase2 step1.1 job_id result t2

/-- `GET /api/job/{id}`: 404 for an unknown or evicted id, otherwise
the `make_safe_job` projection. -/
def do_GET_job (jobs : JobsMap) (job_id : Nat) : HttpResponse :=
  match jobs job_id with
  | none => { statusCode := 404, body := errorResponse (str2cp "job not found") }
  | some job =>
    { statusCode := 200
      body := Json.obj (.cons (str2cp "status") (.str (statusStr job.status))
        (.cons (str2cp "result") (job.result.getD Json.null)
          (.cons (str2cp "created_at") (.int job.created_at)
            (.cons (str2cp "started_at")
              ((job.started_at.map Json.int).getD Json.null)
              (.cons (str2cp "finished_at")
                ((job.finished_at.map Json.int).getD Json.null) .nil))))) }

/-- The JSON request object `rpc_call_tarot` serializes onto the wire:
the job's stored (stripped) payload. -/
def payloadToJson (p : CleanPayload) : Json :=
  Json.obj (.cons (str2cp "mode") (.str p.mode)
    (.cons (str2cp "question") (.str p.question)
      (.cons (str2cp "information") (.str p.information) .nil)))

/-- The frame `rpc_call_tarot` sends for a payload. -/
def rpc_call_tarot_frame (p : CleanPayload) : Option PyBytes :=
  send_msg (payloadToJson p)

/-! ## The front door as a transition system

Interleaved execution of the HTTP threads and the background
`run_tarot_job` threads, every shared-table access mediated by
`JOBS_LOCK` exactly as the source takes it: submission (validation,
eviction and insertion under the lock, then thread spawn), the worker's
first locked section, and the worker's second locked section.  The RPC
call happens between the two locked sections and its result enters the
store only through the second one. -/
/-- Progress of one spawned `run_tarot_job` thread. -/
inductive WPhase where
  | spawned
  | calledRpc
  | finishedW

deriving DecidableEq

/-- The job status a worker phase implies for its (surviving) job. -/
def phaseStatus : WPhase → JobStatus
  | .spawned => .pending
  | .calledRpc => .running
  | .finishedW => .done

/-- Front-door process state: the `JOBS` table, each spawned worker
thread's progress, and the fresh-id counter standing for uuid4's
never-reused tokens. -/
structure FrontState where
  jobs : JobsMap
  tasks : Nat → Option WPhase
  nextId : Nat

/-- No jobs, no workers. -/
def initFront : FrontState :=
  { jobs := fun _ => none, tasks := fun _ => none, nextId := 0 }

/-- What happened in one atomic step. -/
inductive FLabel where
  | submit (payload : SubmitPayload) (now : Int)
  | submitRejected (payload : SubmitPayload) (now : Int)
  | phase1 (id : Nat) (t1 : Int)
  | phase2 (id : Nat) (result : Json) (t2 : Int)

/-- One atomic step of the front door. -/
inductive FStep : FrontState → FLabel → FrontState → Prop
  | submit (payload : SubmitPayload) (now : Int) (s : FrontState)
      (hok : (_validate_submit payload).1 = true) :
      FStep s (.submit payload now)
        { jobs := (do_POST s.jobs payload s.nextId now).jobs
          tasks := fun id => if id = s.nextId then some .spawned else s.tasks id
          nextId := s.nextId + 1 }
  | submitRejected (payload : SubmitPayload) (now : Int) (s : FrontState)
      (hbad : (_validate_submit payload).1 = false) :
      FStep s (.submitRejected payload now) s
  | phase1 (id : Nat) (t1 : Int) (s : FrontState)
      (h : s.tasks id = some .spawned) :
      FStep s (.phase1 id t1)
        { jobs := (run_tarot_job_phase1 s.jobs id t1).1
          tasks := fun t => if t = id then some .calledRpc else s.tasks t
          nextId := s.nextId }
  | phase2 (id : Nat) (result : Json) (t2 : Int) (s : FrontState)
      (h : s.tasks id = some .calledRpc) :
      FStep s (.phase2 id result t2)
        { jobs := run_tarot_job_phase2 s.jobs id result t2
          tasks := fun t => if t = id then some .finishedW else s.tasks t
          nextId := s.nextId }

/-- Reachable front-door states. -/
inductive FReach : FrontState → Prop
  | init : FReach initFront
  | step {s t : FrontState} {l : FLabel} : FReach s → FStep s l t → FReach t

/-- The inductive invariant: ids in use are below the counter, and every
live job's status agrees with its own worker thread's progress. -/
def FInv (s : FrontState) : Prop :=
  (∀ id j, s.jobs id = some j → id < s.nextId) ∧
  (∀ id ph, s.tasks id = some ph → id < s.nextId) ∧
  (∀ id j, s.jobs id = some j →
    ∃ ph, s.tasks id = some ph ∧ phaseStatus ph = j.status)

/-- Order of the forward-only lifecycle. -/
def statusRank : JobStatus → Nat
  | .pending => 0
  | .running => 1
  | .done => 2

/-- Zero or more further steps of the front door. -/
inductive FFollow : FrontState → FrontState → Prop
  | refl (s : FrontState) : FFollow s s
  | tail {s t u : FrontState} {l : FLabel} : FFollow s t → FStep t l u → FFollow s u

/-- The value `run_tarot_job` stores: the RPC response on success, the
synthesized `rpc failed` object when `rpc_call_tarot` raised. -/
def rpcResultJson : Except PyExc Json → Json
  | .ok r => r
  | .error e => rpcFailureResult e

/-! ## Witness fixtures -/
/-- A valid submission body. -/
def wPayload : SubmitPayload :=
  { mode := some (str2cp "love"), question := some (str2cp "will it work out?"),
    information := some [] }

/-- The invalid-mode submission of the spec scenario. -/
def wBadPayload : SubmitPayload :=
  { mode := some (str2cp "bogus"), question := some (str2cp "hi there"),
    information := some [] }

/-- A submission whose raw question length is in bounds but whose
stripped length is not. -/
def wPadPayload : SubmitPayload :=
  { mode := some (str2cp "love"), question := some (str2cp "  a "),
    information := none }

/-- A valid submission with surrounding whitespace on the question. -/
def wSpacedPayload : SubmitPayload :=
  { mode := some (str2cp "love"), question := some (str2cp " will it work out? "),
    information := some [] }

/-- The job record `do_POST` creates for `wPayload` at time 0. -/
def wJob0 : Job := newJob (mkCleanPayload wPayload) 0

/-- The same record after its worker marked it running at time 5. -/
def wJob1 : Job := { wJob0 with status := .running, started_at := some 5 }

/-- A one-job table. -/
def wJobs : JobsMap := fun i => if i = 0 then some wJob0 else none

/-- A collaborator exception. -/
def wExc : PyExc := { kind := str2cp "RuntimeError", msg := str2cp "CUDA out of memory" }

/-- A transport exception as the worker surfaces it. -/
def wExc2 : PyExc :=
  { kind := str2cp "ConnectionRefusedError", msg := str2cp "[Errno 111] Connection refused" }

/-- A frame body with multi-byte (non-ASCII) text. -/
def wObj : Json :=
  Json.obj (.cons (str2cp "answer") (.str (str2cp "嘿嘿，小靈魂…"))
    (.cons (str2cp "ok") (.bool true) .nil))

/-- An invalid-mode RPC request. -/
def wReqBad : RpcRequest :=
  { mode := some (str2cp "bogus"), question := some (str2cp "hi there"),
    information := some [] }

/-- A valid RPC request. -/
def wReqGood : RpcRequest :=
  { mode := some (str2cp "love"), question := some (str2cp "will it work out?"),
    information := some [] }

example : pyStrip (str2cp "  hi there ") = str2cp "hi there" := by decide

example : pyStrip (str2cp "  a  ") = str2cp "a" := by decide

example :
    _validate_submit ⟨some (str2cp "bogus"), some (str2cp "hi there"), some []⟩ =
      (false, str2cp "mode must be one of: general/love/career/money") := by decide

example :
    (_validate_submit ⟨some (str2cp "love"), some (str2cp "hi there"), none⟩).1 = true := by
  decide

example :
    printJson (.obj (.cons (str2cp "ok") (.bool false)
      (.cons (str2cp "error") (.str (str2cp "bad mode")) .nil))) =
    str2cp "\x7b\"ok\": false, \"error\": \"bad mode\"\x7d" := by decide

example : printJson (.arr (.cons (.int 5) (.cons (.int (-17)) .nil))) =
    str2cp "[5, -17]" := by decide

example : loads (str2cp "\x7b\"ok\": true, \"job_id\": \"ab12\"\x7d") =
    .ok (.obj (.cons (str2cp "ok") (.bool true)
      (.cons (str2cp "job_id") (.str (str2cp "ab12")) .nil))) := by decide

example : loads (str2cp " [1, -2, []] ") =
    .ok (.arr (.cons (.int 1) (.cons (.int (-2)) (.cons (.arr .nil) .nil)))) := by
  decide

example : (loads (str2cp "\x7b\"a\": \x7d")).isOk = false := by decide

example : loads (str2cp "\"a\\u0041\\n\"") = .ok (.str [97, 65, 10]) := by decide

theorem skipWs_cons_false {c : Nat} (h : isJsonWs c = false) (s : PyStr) :
    skipWs (c :: s) = c :: s := by
  simp [skipWs, List.dropWhile_cons, h]

theorem skipWs_cons_true {c : Nat} (h : isJsonWs c = true) (s : PyStr) :
    skipWs (c :: s) = skipWs s := by
  simp [skipWs, List.dropWhile_cons, h]

theorem takeWhile_append_of_all {p : Nat → Bool} :
    ∀ (l r : List Nat), (∀ c ∈ l, p c = true) →
      (l ++ r).takeWhile p = l ++ r.takeWhile p := by
  intro l r h
  induction l with
  | nil => simp
  | cons c cs ih =>
    have hc : p c = true := h c (by simp)
    simp only [List.cons_append, List.takeWhile_cons, hc, if_true]
    rw [ih (fun d hd => h d (by simp [hd]))]

theorem dropWhile_append_of_all {p : Nat → Bool} :
    ∀ (l r : List Nat), (∀ c ∈ l, p c = true) →
      (l ++ r).dropWhile p = r.dropWhile p := by
  intro l r h
  induction l with
  | nil => simp
  | cons c cs ih =>
    have hc : p c = true := h c (by simp)
    simp only [List.cons_append, List.dropWhile_cons, hc, if_true]
    exact ih (fun d hd => h d (by simp [hd]))

theorem takeWhile_eq_nil_of_head {p : Nat → Bool} :
    ∀ (r : List Nat), (∀ c, r.head? = some c → p c = false) → r.takeWhile p = [] := by
  intro r h
  cases r with
  | nil => simp
  | cons c cs => simp [List.takeWhile_cons, h c rfl]

theorem dropWhile_eq_self_of_head {p : Nat → Bool} :
    ∀ (r : List Nat), (∀ c, r.head? = some c → p c = false) → r.dropWhile p = r := by
  intro r h
  cases r with
  | nil => simp
  | cons c cs => simp [List.dropWhile_cons, h c rfl]

theorem natPrintAux_digits :
    ∀ fuel n, ∀ c ∈ natPrintAux fuel n, 48 ≤ c ∧ c ≤ 57 := by
  intro fuel
  induction fuel with
  | zero => intro n c hc; simp [natPrintAux] at hc
  | succ f ih =>
    intro n c hc
    by_cases h : n < 10
    · simp [natPrintAux, h] at hc
      omega
    · simp only [natPrintAux, if_neg h, List.mem_append, List.mem_singleton] at hc
      rcases hc with hc | hc
      · exact ih _ c hc
      · have : n % 10 < 10 := Nat.mod_lt _ (by omega)
        omega

theorem natPrintAux_ne_nil {fuel n : Nat} (h : 0 < fuel) :
    natPrintAux fuel n ≠ [] := by
  cases fuel with
  | zero => omega
  | succ f =>
    by_cases h10 : n < 10
    · simp [natPrintAux, h10]
    · simp [natPrintAux, h10]

theorem natPrint_digits : ∀ n, ∀ c ∈ natPrint n, 48 ≤ c ∧ c ≤ 57 := by
  intro n c hc
  unfold natPrint at hc
  by_cases h : n = 0
  · simp [h] at hc; omega
  · rw [if_neg h] at hc
    exact natPrintAux_digits n n c hc

theorem natPrint_ne_nil (n : Nat) : natPrint n ≠ [] := by
  unfold natPrint
  by_cases h : n = 0
  · simp [h]
  · rw [if_neg h]
    exact natPrintAux_ne_nil (by omega)

theorem natPrintAux_foldl :
    ∀ fuel n a, 0 < n → n ≤ fuel →
      (natPrintAux fuel n).foldl (fun acc c => acc * 10 + (c - 48)) a =
        a * 10 ^ (natPrintAux fuel n).length + n := by
  intro fuel
  induction fuel with
  | zero => intro n a h1 h2; omega
  | succ f ih =>
    intro n a h1 h2
    by_cases h : n < 10
    · simp [natPrintAux, h]
    · rw [natPrintAux, if_neg h]
      rw [List.foldl_append, List.length_append]
      have hdiv_pos : 0 < n / 10 := Nat.div_pos (by omega) (by omega)
      have hdiv_le : n / 10 ≤ f := by
        have := Nat.div_lt_self (show 0 < n by omega) (show 1 < 10 by omega)
        omega
      rw [ih (n / 10) a hdiv_pos hdiv_le]
      simp only [List.foldl_cons, List.foldl_nil, List.length_cons, List.length_nil]
      have hmod : n % 10 < 10 := Nat.mod_lt _ (by omega)
      have : (a * 10 ^ (natPrintAux f (n / 10)).length + n / 10) * 10 + (48 + n % 10 - 48) =
          a * 10 ^ ((natPrintAux f (n / 10)).length + 1) + (10 * (n / 10) + n % 10) := by
        rw [Nat.pow_succ]
        ring_nf
        omega
      rw [this, Nat.div_add_mod]

theorem digitsToNat_natPrint (n : Nat) : digitsToNat (natPrint n) = n := by
  unfold digitsToNat natPrint
  by_cases h : n = 0
  · simp [h]
  · rw [if_neg h]
    rw [natPrintAux_foldl n n 0 (by omega) (le_refl n)]
    simp

theorem parseDigits_natPrint (n : Nat) (rest : PyStr) (hrest : noDigitHead rest) :
    parseDigits (natPrint n ++ rest) = some (n, rest) := by
  have hall : ∀ c ∈ natPrint n, isDigitCP c = true := by
    intro c hc
    have := natPrint_digits n c hc
    simp [isDigitCP]
    omega
  have hhead : ∀ c, rest.head? = some c → isDigitCP c = false := by
    intro c hc
    cases rest with
    | nil => simp at hc
    | cons r rs =>
      simp at hc
      subst hc
      exact hrest
  unfold parseDigits
  rw [takeWhile_append_of_all _ _ hall, dropWhile_append_of_all _ _ hall,
    takeWhile_eq_nil_of_head _ hhead, dropWhile_eq_self_of_head _ hhead,
    List.append_nil]
  rw [if_neg (by simp [List.isEmpty_iff, natPrint_ne_nil])]
  rw [digitsToNat_natPrint]

theorem parseNumber_intPrint (i : Int) (rest : PyStr) (hrest : noDigitHead rest) :
    parseNumber (intPrint i ++ rest) = some (Json.int i, rest) := by
  unfold intPrint
  by_cases hneg : i < 0
  · rw [if_pos hneg]
    simp only [List.cons_append, parseNumber, if_pos rfl]
    rw [parseDigits_natPrint _ _ hrest]
    have h : -(i.natAbs : Int) = i := by omega
    show some (Json.int (-(i.natAbs : Int)), rest) = some (Json.int i, rest)
    rw [h]
  · rw [if_neg hneg]
    obtain ⟨c, cs, hc⟩ := List.exists_cons_of_ne_nil (natPrint_ne_nil i.natAbs)
    have hdig : 48 ≤ c ∧ c ≤ 57 := natPrint_digits _ c (by rw [hc]; simp)
    rw [hc]
    simp only [List.cons_append, parseNumber]
    rw [if_neg (by omega)]
    rw [← List.cons_append, ← hc, parseDigits_natPrint _ _ hrest]
    have h : (i.natAbs : Int) = i := by omega
    show some (Json.int ((i.natAbs : Int)), rest) = some (Json.int i, rest)
    rw [h]

theorem hexVal_hexDig (d : Nat) (h : d < 16) : hexVal (hexDig d) = some d := by
  revert h
  revert d
  decide

theorem parseStringBody_esc : ∀ (s rest : PyStr),
    parseStringBody (escStr s ++ (34 :: rest)) = some (s, rest) := by
  intro s
  induction s with
  | nil =>
    intro rest
    rw [show escStr [] ++ (34 :: rest) = 34 :: rest from rfl]
    rw [parseStringBody.eq_def]
    simp
  | cons c cs ih =>
    intro rest
    rw [escStr, List.append_assoc]
    unfold escChar
    by_cases h34 : c = 34
    · subst h34
      rw [if_pos rfl, show ([92, 34] : PyStr) ++ (escStr cs ++ 34 :: rest) =
        92 :: 34 :: (escStr cs ++ 34 :: rest) from rfl]
      rw [parseStringBody.eq_def]
      simp [ih]
    · rw [if_neg h34]
      by_cases h92 : c = 92
      · subst h92
        rw [if_pos rfl, show ([92, 92] : PyStr) ++ (escStr cs ++ 34 :: rest) =
          92 :: 92 :: (escStr cs ++ 34 :: rest) from rfl]
        rw [parseStringBody.eq_def]
        simp [ih]
      · rw [if_neg h92]
        by_cases h8 : c = 8
        · subst h8
          rw [if_pos rfl, show ([92, 98] : PyStr) ++ (escStr cs ++ 34 :: rest) =
            92 :: 98 :: (escStr cs ++ 34 :: rest) from rfl]
          rw [parseStringBody.eq_def]
          simp [ih]
        · rw [if_neg h8]
          by_cases h9 : c = 9
          · subst h9
            rw [if_pos rfl, show ([92, 116] : PyStr) ++ (escStr cs ++ 34 :: rest) =
              92 :: 116 :: (escStr cs ++ 34 :: rest) from rfl]
            rw [parseStringBody.eq_def]
            simp [ih]
          · rw [if_neg h9]
            by_cases h10 : c = 10
            · subst h10
              rw [if_pos rfl, show ([92, 110] : PyStr) ++ (escStr cs ++ 34 :: rest) =
                92 :: 110 :: (escStr cs ++ 34 :: rest) from rfl]
              rw [parseStringBody.eq_def]
              simp [ih]
            · rw [if_neg h10]
              by_cases h12 : c = 12
              · subst h12
                rw [if_pos rfl, show ([92, 102] : PyStr) ++ (escStr cs ++ 34 :: rest) =
                  92 :: 102 :: (escStr cs ++ 34 :: rest) from rfl]
                rw [parseStringBody.eq_def]
                simp [ih]
              · rw [if_neg h12]
                by_cases h13 : c = 13
                · subst h13
                  rw [if_pos rfl, show ([92, 114] : PyStr) ++ (escStr cs ++ 34 :: rest) =
                    92 :: 114 :: (escStr cs ++ 34 :: rest) from rfl]
                  rw [parseStringBody.eq_def]
                  simp [ih]
                · rw [if_neg h13]
                  by_cases hctl : c < 32
                  · rw [if_pos hctl]
                    rw [show ([92, 117, 48, 48, hexDig (c / 16), hexDig (c % 16)] : PyStr) ++
                      (escStr cs ++ 34 :: rest) =
                      92 :: 117 :: 48 :: 48 :: hexDig (c / 16) :: hexDig (c % 16) ::
                        (escStr cs ++ 34 :: rest) from rfl]
                    rw [parseStringBody.eq_def]
                    have e1 : hexVal (hexDig (c / 16)) = some (c / 16) :=
                      hexVal_hexDig _ (by omega)
                    have e2 : hexVal (hexDig (c % 16)) = some (c % 16) :=
                      hexVal_hexDig _ (by omega)
                    have e3 : ((((0 : Nat) * 16 + 0) * 16 + c / 16) * 16 + c % 16) = c := by
                      omega
                    have e0 : hexVal 48 = some 0 := rfl
                    simp [e0, e1, e2, ih]
                    omega
                  · rw [if_neg hctl]
                    rw [show ([c] : PyStr) ++ (escStr cs ++ 34 :: rest) =
                      c :: (escStr cs ++ 34 :: rest) from rfl]
                    rw [parseStringBody.eq_def]
                    simp [h34, h92, hctl, ih]

theorem jsize_pos : ∀ j, 1 ≤ jsize j := by
  intro j
  cases j <;> simp [jsize]

theorem lsize_pos : ∀ l, 1 ≤ lsize l := by
  intro l
  cases l with
  | nil => decide
  | cons x tl => simp only [lsize]; omega

theorem msize_pos : ∀ m, 1 ≤ msize m := by
  intro m
  cases m with
  | nil => decide
  | cons k v tl => simp only [msize]; omega

/-- Every printed JSON value starts with a significant character that is
neither a closing bracket nor a closing brace. -/
theorem printJson_head :
    ∀ j, ∃ c cs, printJson j = c :: cs ∧ isJsonWs c = false ∧ c ≠ 93 ∧ c ≠ 125 := by
  intro j
  cases j with
  | null => exact ⟨110, [117, 108, 108], rfl, by decide, by decide, by decide⟩
  | bool b =>
    cases b with
    | true => exact ⟨116, [114, 117, 101], rfl, by decide, by decide, by decide⟩
    | false => exact ⟨102, [97, 108, 115, 101], rfl, by decide, by decide, by decide⟩
  | int n =>
    show ∃ c cs, intPrint n = c :: cs ∧ _
    unfold intPrint
    by_cases hneg : n < 0
    · rw [if_pos hneg]
      exact ⟨45, natPrint n.natAbs, rfl, by decide, by decide, by decide⟩
    · rw [if_neg hneg]
      obtain ⟨c, cs, hc⟩ := List.exists_cons_of_ne_nil (natPrint_ne_nil n.natAbs)
      have hdig : 48 ≤ c ∧ c ≤ 57 := natPrint_digits _ c (by rw [hc]; simp)
      exact ⟨c, cs, hc, by simp [isJsonWs]; omega, by omega, by omega⟩
  | str s => exact ⟨34, escStr s ++ [34], rfl, by decide, by decide, by decide⟩
  | arr xs => exact ⟨91, printElems xs ++ [93], rfl, by decide, by decide, by decide⟩
  | obj kvs => exact ⟨123, printMembers kvs ++ [125], rfl, by decide, by decide, by decide⟩

/-- A printed nonempty element list starts with its first printed
element. -/
theorem printElems_cons_eq :
    ∀ x tl, ∃ t, printElems (JsonList.cons x tl) = printJson x ++ t := by
  intro x tl
  cases tl with
  | nil => exact ⟨[], by simp [printElems]⟩
  | cons y tl2 => exact ⟨44 :: 32 :: printElems (JsonList.cons y tl2), rfl⟩

theorem parseVal_succ_true (f : Nat) (rest : PyStr) :
    parseVal (f + 1) (printJson (Json.bool true) ++ rest) = some (Json.bool true, rest) := by
  rw [show printJson (Json.bool true) ++ rest = 116 :: 114 :: 117 :: 101 :: rest from rfl]
  rw [parseVal.eq_def]
  simp [skipWs, isJsonWs, isDigitCP]

theorem parseVal_succ_false (f : Nat) (rest : PyStr) :
    parseVal (f + 1) (printJson (Json.bool false) ++ rest) = some (Json.bool false, rest) := by
  rw [show printJson (Json.bool false) ++ rest = 102 :: 97 :: 108 :: 115 :: 101 :: rest from rfl]
  rw [parseVal.eq_def]
  simp [skipWs, isJsonWs, isDigitCP]

theorem parseVal_succ_num (f : Nat) (i : Int) (rest : PyStr) (hrest : noDigitHead rest) :
    parseVal (f + 1) (printJson (Json.int i) ++ rest) = some (Json.int i, rest) := by
  have h45 : ∃ c cs, intPrint i = c :: cs ∧ (c = 45 ∨ (48 ≤ c ∧ c ≤ 57)) := by
    unfold intPrint
    by_cases hneg : i < 0
    · rw [if_pos hneg]
      exact ⟨45, natPrint i.natAbs, rfl, Or.inl rfl⟩
    · rw [if_neg hneg]
      obtain ⟨c, cs, hc⟩ := List.exists_cons_of_ne_nil (natPrint_ne_nil i.natAbs)
      exact ⟨c, cs, hc, Or.inr (natPrint_digits _ c (by rw [hc]; simp))⟩
  obtain ⟨c, cs, hc, hcd⟩ := h45
  rw [show printJson (Json.int i) = intPrint i from rfl, hc, List.cons_append]
  have hskip : ∀ s, skipWs (c :: s) = c :: s :=
    skipWs_cons_false (by simp [isJsonWs]; omega)
  have hcond : (decide (c = 45) || isDigitCP c) = true := by
    rcases hcd with h | h
    · simp [h]
    · simp [isDigitCP]
      omega
  rw [parseVal.eq_def]
  simp only [hskip, hcond, if_true]
  rw [← List.cons_append, ← hc]
  exact parseNumber_intPrint i rest hrest

theorem parseVal_succ_str (f : Nat) (s rest : PyStr) :
    parseVal (f + 1) (printJson (Json.str s) ++ rest) = some (Json.str s, rest) := by
  rw [show printJson (Json.str s) ++ rest = 34 :: (escStr s ++ (34 :: rest)) by
    simp [printJson]]
  have hskip : ∀ u, skipWs ((34 : Nat) :: u) = 34 :: u := skipWs_cons_false (by decide)
  rw [parseVal.eq_def]
  simp [hskip, parseStringBody_esc, isDigitCP]

theorem parseVal_succ_arr_nil (f : Nat) (rest : PyStr) :
    parseVal (f + 1) (printJson (Json.arr JsonList.nil) ++ rest) =
      some (Json.arr JsonList.nil, rest) := by
  rw [show printJson (Json.arr JsonList.nil) ++ rest = 91 :: 93 :: rest from rfl]
  rw [parseVal.eq_def]
  simp [skipWs, isJsonWs, isDigitCP]

theorem parseVal_succ_obj_nil (f : Nat) (rest : PyStr) :
    parseVal (f + 1) (printJson (Json.obj JsonMembers.nil) ++ rest) =
      some (Json.obj JsonMembers.nil, rest) := by
  rw [show printJson (Json.obj JsonMembers.nil) ++ rest = 123 :: 125 :: rest from rfl]
  rw [parseVal.eq_def]
  simp [skipWs, isJsonWs, isDigitCP]

theorem parseVal_succ_arr_cons (f : Nat) (x : Json) (tl : JsonList) (rest : PyStr) :
    parseVal (f + 1) (printJson (Json.arr (JsonList.cons x tl)) ++ rest) =
      (parseElemsNE f (printElems (JsonList.cons x tl) ++ (93 :: rest))).map
        (fun p => (Json.arr p.1, p.2)) := by
  rw [show printJson (Json.arr (JsonList.cons x tl)) ++ rest =
    91 :: (printElems (JsonList.cons x tl) ++ (93 :: rest)) by
      simp [printJson]]
  have hskip1 : ∀ u, skipWs ((91 : Nat) :: u) = 91 :: u := skipWs_cons_false (by decide)
  obtain ⟨t, ht⟩ := printElems_cons_eq x tl
  obtain ⟨c0, cs0, hx, hws0, h93, h125⟩ := printJson_head x
  have hsh : printElems (JsonList.cons x tl) ++ (93 :: rest) =
      c0 :: (cs0 ++ (t ++ (93 :: rest))) := by
    rw [ht, hx]
    simp
  rw [parseVal.eq_def]
  simp [hskip1, hsh, skipWs_cons_false hws0, h93, isDigitCP]

/-- A printed nonempty member list starts with the opening quote of its
first key. -/
theorem printMembers_cons_eq :
    ∀ k v tl, ∃ t, printMembers (JsonMembers.cons k v tl) = 34 :: t := by
  intro k v tl
  cases tl with
  | nil => exact ⟨escStr k ++ (34 :: 58 :: 32 :: printJson v), rfl⟩
  | cons k2 v2 tl2 =>
    exact ⟨(escStr k ++ (34 :: 58 :: 32 :: printJson v)) ++
      (44 :: 32 :: printMembers (JsonMembers.cons k2 v2 tl2)), rfl⟩

theorem parseVal_succ_obj_cons (f : Nat) (k : PyStr) (v : Json) (tl : JsonMembers)
    (rest : PyStr) :
    parseVal (f + 1) (printJson (Json.obj (JsonMembers.cons k v tl)) ++ rest) =
      (parseMembersNE f (printMembers (JsonMembers.cons k v tl) ++ (125 :: rest))).map
        (fun p => (Json.obj p.1, p.2)) := by
  rw [show printJson (Json.obj (JsonMembers.cons k v tl)) ++ rest =
    123 :: (printMembers (JsonMembers.cons k v tl) ++ (125 :: rest)) by
      simp [printJson]]
  have hskip1 : ∀ u, skipWs ((123 : Nat) :: u) = 123 :: u := skipWs_cons_false (by decide)
  have hskip2 : ∀ u, skipWs ((34 : Nat) :: u) = 34 :: u := skipWs_cons_false (by decide)
  obtain ⟨t, ht⟩ := printMembers_cons_eq k v tl
  have hsh : printMembers (JsonMembers.cons k v tl) ++ (125 :: rest) =
      34 :: (t ++ (125 :: rest)) := by
    rw [ht]
    simp
  rw [parseVal.eq_def]
  simp [hskip1, hsh, hskip2, isDigitCP]

set_option maxHeartbeats 1000000 in
/-- Parsing inverts printing: a printed value followed by any
non-digit-headed continuation parses back to exactly that value, given
fuel at least its size. -/
theorem parse_print (f : Nat) :
    (∀ j rest, jsize j ≤ f → noDigitHead rest →
      parseVal f (printJson j ++ rest) = some (j, rest)) ∧
    (∀ x tl rest, lsize (JsonList.cons x tl) ≤ f →
      parseElemsNE f (printElems (JsonList.cons x tl) ++ (93 :: rest)) =
        some (JsonList.cons x tl, rest)) ∧
    (∀ k v tl rest, msize (JsonMembers.cons k v tl) ≤ f →
      parseMembersNE f (printMembers (JsonMembers.cons k v tl) ++ (125 :: rest)) =
        some (JsonMembers.cons k v tl, rest)) := by
  induction f using Nat.strong_induction_on with
  | _ f IH =>
    refine ⟨?_, ?_, ?_⟩
    · intro j rest hsize hrest
      cases f with
      | zero => exact absurd hsize (by have := jsize_pos j; omega)
      | succ f2 =>
        cases j with
        | null =>
          rw [show printJson Json.null ++ rest = 110 :: 117 :: 108 :: 108 :: rest from rfl]
          rw [parseVal.eq_def]
          simp [skipWs, isJsonWs, isDigitCP]
        | bool b =>
          cases b with
          | false => exact parseVal_succ_false f2 rest
          | true => exact parseVal_succ_true f2 rest
        | int n => exact parseVal_succ_num f2 n rest hrest
        | str s => exact parseVal_succ_str f2 s rest
        | arr xs =>
          cases xs with
          | nil => exact parseVal_succ_arr_nil f2 rest
          | cons x tl =>
            rw [parseVal_succ_arr_cons f2 x tl rest]
            rw [(IH f2 (by omega)).2.1 x tl rest (by simp [jsize] at hsize; omega)]
            rfl
        | obj kvs =>
          cases kvs with
          | nil => exact parseVal_succ_obj_nil f2 rest
          | cons k v tl =>
            rw [parseVal_succ_obj_cons f2 k v tl rest]
            rw [(IH f2 (by omega)).2.2 k v tl rest (by simp [jsize] at hsize; omega)]
            rfl
    · intro x tl rest hsize
      cases f with
      | zero => exact absurd hsize (by have := lsize_pos (JsonList.cons x tl); omega)
      | succ f2 =>
        have hP := (IH f2 (by omega)).1
        cases tl with
        | nil =>
          rw [show printElems (JsonList.cons x JsonList.nil) = printJson x from rfl]
          have hx : parseVal f2 (printJson x ++ (93 :: rest)) = some (x, 93 :: rest) :=
            hP x (93 :: rest) (by simp [lsize] at hsize; omega)
              (by simp [noDigitHead, isDigitCP])
          have h93 : ∀ u, skipWs ((93 : Nat) :: u) = 93 :: u :=
            skipWs_cons_false (by decide)
          rw [parseElemsNE.eq_def]
          simp [hx, h93]
        | cons y tl2 =>
          rw [show printElems (JsonList.cons x (JsonList.cons y tl2)) =
            printJson x ++ (44 :: 32 :: printElems (JsonList.cons y tl2)) from rfl]
          rw [List.append_assoc]
          simp only [List.cons_append]
          have hx : parseVal f2 (printJson x ++
              (44 :: 32 :: (printElems (JsonList.cons y tl2) ++ (93 :: rest)))) =
              some (x, 44 :: 32 :: (printElems (JsonList.cons y tl2) ++ (93 :: rest))) :=
            hP x _ (by have := lsize_pos (JsonList.cons y tl2); simp [lsize] at hsize; omega)
              (by simp [noDigitHead, isDigitCP])
          have hQ2 := (IH f2 (by omega)).2.1 y tl2 rest
            (by have := jsize_pos x; simp [lsize] at hsize ⊢; omega)
          have h44 : ∀ u, skipWs ((44 : Nat) :: u) = 44 :: u :=
            skipWs_cons_false (by decide)
          have h32 : ∀ u, skipWs ((32 : Nat) :: u) = skipWs u :=
            skipWs_cons_true (by decide)
          obtain ⟨t, ht⟩ := printElems_cons_eq y tl2
          obtain ⟨c0, cs0, hy, hws0, hn93, hn125⟩ := printJson_head y
          have hsk3 : skipWs (printElems (JsonList.cons y tl2) ++ (93 :: rest)) =
              printElems (JsonList.cons y tl2) ++ (93 :: rest) := by
            rw [ht, hy]
            simp only [List.cons_append]
            exact skipWs_cons_false hws0 _
          rw [parseElemsNE.eq_def]
          simp [hx, h44, h32, hsk3, hQ2]
    · intro k v tl rest hsize
      cases f with
      | zero => exact absurd hsize (by have := msize_pos (JsonMembers.cons k v tl); omega)
      | succ f2 =>
        have hP := (IH f2 (by omega)).1
        have h34 : ∀ u, skipWs ((34 : Nat) :: u) = 34 :: u := skipWs_cons_false (by decide)
        have h58 : ∀ u, skipWs ((58 : Nat) :: u) = 58 :: u := skipWs_cons_false (by decide)
        have h32 : ∀ u, skipWs ((32 : Nat) :: u) = skipWs u := skipWs_cons_true (by decide)
        have h125 : ∀ u, skipWs ((125 : Nat) :: u) = 125 :: u := skipWs_cons_false (by decide)
        have h44 : ∀ u, skipWs ((44 : Nat) :: u) = 44 :: u := skipWs_cons_false (by decide)
        obtain ⟨cv, csv, hv, hwsv, hv93, hv125⟩ := printJson_head v
        cases tl with
        | nil =>
          rw [show printMembers (JsonMembers.cons k v JsonMembers.nil) =
            34 :: (escStr k ++ (34 :: 58 :: 32 :: printJson v)) from rfl]
          simp only [List.cons_append, List.append_assoc]
          have hsb : parseStringBody (escStr k ++
              (34 :: (58 :: 32 :: (printJson v ++ (125 :: rest))))) =
              some (k, 58 :: 32 :: (printJson v ++ (125 :: rest))) :=
            parseStringBody_esc k _
          have hx : parseVal f2 (printJson v ++ (125 :: rest)) = some (v, 125 :: rest) :=
            hP v _ (by simp [msize] at hsize; omega) (by simp [noDigitHead, isDigitCP])
          have hskv : skipWs (printJson v ++ (125 :: rest)) =
              printJson v ++ (125 :: rest) := by
            rw [hv]
            simp only [List.cons_append]
            exact skipWs_cons_false hwsv _
          rw [parseMembersNE.eq_def]
          simp [h34, hsb, h58, h32, hskv, hx, h125]
        | cons k2 v2 tl2 =>
          rw [show printMembers (JsonMembers.cons k v (JsonMembers.cons k2 v2 tl2)) =
            (34 :: (escStr k ++ (34 :: 58 :: 32 :: printJson v))) ++
              (44 :: 32 :: printMembers (JsonMembers.cons k2 v2 tl2)) from rfl]
          simp only [List.cons_append, List.append_assoc]
          have hsb : parseStringBody (escStr k ++ (34 :: (58 :: 32 :: (printJson v ++
              (44 :: 32 :: (printMembers (JsonMembers.cons k2 v2 tl2) ++ (125 :: rest))))))) =
              some (k, 58 :: 32 :: (printJson v ++
                (44 :: 32 :: (printMembers (JsonMembers.cons k2 v2 tl2) ++ (125 :: rest))))) :=
            parseStringBody_esc k _
          have hx : parseVal f2 (printJson v ++
              (44 :: 32 :: (printMembers (JsonMembers.cons k2 v2 tl2) ++ (125 :: rest)))) =
              some (v, 44 :: 32 ::
                (printMembers (JsonMembers.cons k2 v2 tl2) ++ (125 :: rest))) :=
            hP v _ (by have := msize_pos (JsonMembers.cons k2 v2 tl2)
                       simp [msize] at hsize; omega)
              (by simp [noDigitHead, isDigitCP])
          have hR2 := (IH f2 (by omega)).2.2 k2 v2 tl2 rest
            (by have := jsize_pos v; simp [msize] at hsize ⊢; omega)
          obtain ⟨t2, ht2⟩ := printMembers_cons_eq k2 v2 tl2
          have hskM : skipWs (printMembers (JsonMembers.cons k2 v2 tl2) ++ (125 :: rest)) =
              printMembers (JsonMembers.cons k2 v2 tl2) ++ (125 :: rest) := by
            rw [ht2]
            simp only [List.cons_append]
            exact h34 _
          have hskv : skipWs (printJson v ++
              (44 :: 32 :: (printMembers (JsonMembers.cons k2 v2 tl2) ++ (125 :: rest)))) =
              printJson v ++
                (44 :: 32 :: (printMembers (JsonMembers.cons k2 v2 tl2) ++ (125 :: rest))) := by
            rw [hv]
            simp only [List.cons_append]
            exact skipWs_cons_false hwsv _
          rw [parseMembersNE.eq_def]
          simp [h34, hsb, h58, h32, hskM, hskv, hx, h44, hR2]

theorem intPrint_ne_nil (i : Int) : intPrint i ≠ [] := by
  unfold intPrint
  by_cases h : i < 0
  · rw [if_pos h]
    simp
  · rw [if_neg h]
    exact natPrint_ne_nil i.natAbs

mutual
theorem jsize_le_print : (j : Json) → jsize j ≤ 2 * (printJson j).length
  | .null => by decide
  | .bool b => by cases b <;> decide
  | .int n => by
      have h : 0 < (intPrint n).length := List.length_pos.mpr (intPrint_ne_nil n)
      simp only [jsize, printJson]
      omega
  | .str s => by
      simp only [jsize, printJson, List.length_cons]
      omega
  | .arr xs => by
      have h := lsize_le_print xs
      simp only [jsize, printJson, List.length_cons, List.length_append] at h ⊢
      omega
  | .obj kvs => by
      have h := msize_le_print kvs
      simp only [jsize, printJson, List.length_cons, List.length_append] at h ⊢
      omega
termination_by structural j => j
theorem lsize_le_print : (l : JsonList) → lsize l ≤ 2 * (printElems l).length + 3
  | .nil => by decide
  | .cons x .nil => by
      have h := jsize_le_print x
      simp only [lsize, printElems]
      omega
  | .cons x (.cons y tl) => by
      have h1 := jsize_le_print x
      have h2 := lsize_le_print (JsonList.cons y tl)
      simp only [lsize, printElems, List.length_append, List.length_cons] at h2 ⊢
      omega
termination_by structural l => l
theorem msize_le_print : (m : JsonMembers) → msize m ≤ 2 * (printMembers m).length + 3
  | .nil => by decide
  | .cons k v .nil => by
      have h := jsize_le_print v
      simp only [msize, printMembers, List.length_append, List.length_cons]
      omega
  | .cons k v (.cons k2 v2 tl) => by
      have h1 := jsize_le_print v
      have h2 := msize_le_print (JsonMembers.cons k2 v2 tl)
      simp only [msize, printMembers, List.length_append, List.length_cons] at h2 ⊢
      omega
termination_by structural m => m
end

/-- `json.loads` inverts `json.dumps` on every document the printer can
produce. -/
theorem loads_printJson (j : Json) : loads (printJson j) = .ok j := by
  unfold loads
  have hfuel : jsize j ≤ 2 * (printJson j).length + 2 := by
    have := jsize_le_print j
    omega
  have h := (parse_print (2 * (printJson j).length + 2)).1 j [] hfuel trivial
  rw [List.append_nil] at h
  rw [h]
  simp [skipWs]

example : utf8Encode (str2cp "占卜") = [229, 141, 160, 229, 141, 156] := by decide

example : utf8Decode [229, 141, 160, 229, 141, 156] = some (str2cp "占卜") := by decide

example : utf8Decode [0xC0, 0x80] = none := by decide

example : utf8Decode [0xED, 0xA0, 0x80] = none := by decide

theorem utf8Decode_encodeChar (c : Nat) (h : scalarB c = true) (rest : PyBytes) :
    utf8Decode (utf8EncodeChar c ++ rest) = (utf8Decode rest).map (fun s => c :: s) := by
  have hs : c < 0xD800 ∨ (0xE000 ≤ c ∧ c < 0x110000) := by
    simp [scalarB] at h
    omega
  unfold utf8EncodeChar
  by_cases h1 : c < 0x80
  · rw [if_pos h1]
    rw [show ([c] : PyBytes) ++ rest = c :: rest from rfl]
    simp only [utf8Decode]
    rw [if_pos h1]
  · rw [if_neg h1]
    by_cases h2 : c < 0x800
    · rw [if_pos h2]
      rw [show ([0xC0 + c / 64, 0x80 + c % 64] : PyBytes) ++ rest =
        (0xC0 + c / 64) :: (0x80 + c % 64) :: rest from rfl]
      simp only [utf8Decode]
      rw [if_neg (by omega), if_neg (by omega), if_pos (by omega)]
      simp only [utf8D2]
      rw [if_pos (by simp [utf8Cont]; omega)]
      rw [if_pos (by omega)]
      have e : (0xC0 + c / 64 - 0xC0) * 64 + (0x80 + c % 64 - 0x80) = c := by omega
      rw [e]
    · rw [if_neg h2]
      by_cases h3 : c < 0x10000
      · rw [if_pos h3]
        rw [show ([0xE0 + c / 4096, 0x80 + (c / 64) % 64, 0x80 + c % 64] : PyBytes) ++ rest =
          (0xE0 + c / 4096) :: (0x80 + (c / 64) % 64) :: (0x80 + c % 64) :: rest from rfl]
        simp only [utf8Decode]
        rw [if_neg (by omega), if_neg (by omega), if_neg (by omega), if_pos (by omega)]
        simp only [utf8D3]
        rw [if_pos (by simp [utf8Cont]; omega)]
        rw [if_pos (by simp; omega)]
        have e : (0xE0 + c / 4096 - 0xE0) * 4096 + (0x80 + (c / 64) % 64 - 0x80) * 64 +
            (0x80 + c % 64 - 0x80) = c := by omega
        rw [e]
      · rw [if_neg h3]
        rw [show ([0xF0 + c / 262144, 0x80 + (c / 4096) % 64, 0x80 + (c / 64) % 64,
          0x80 + c % 64] : PyBytes) ++ rest =
          (0xF0 + c / 262144) :: (0x80 + (c / 4096) % 64) :: (0x80 + (c / 64) % 64) ::
            (0x80 + c % 64) :: rest from rfl]
        simp only [utf8Decode]
        rw [if_neg (by omega), if_neg (by omega), if_neg (by omega), if_neg (by omega),
          if_pos (by omega)]
        simp only [utf8D4]
        rw [if_pos (by simp [utf8Cont]; omega)]
        rw [if_pos (by simp; omega)]
        have e : (0xF0 + c / 262144 - 0xF0) * 262144 + (0x80 + (c / 4096) % 64 - 0x80) * 4096 +
            (0x80 + (c / 64) % 64 - 0x80) * 64 + (0x80 + c % 64 - 0x80) = c := by omega
        rw [e]

/-- UTF-8 decoding inverts encoding on strings of Unicode scalar
values. -/
theorem utf8Decode_encode : ∀ (s : PyStr), s.all scalarB = true →
    utf8Decode (utf8Encode s) = some s := by
  intro s
  induction s with
  | nil => intro _; rfl
  | cons c cs ih =>
    intro h
    simp only [List.all_cons, Bool.and_eq_true] at h
    rw [utf8Encode, utf8Decode_encodeChar c h.1, ih h.2]
    rfl

theorem recvall_eq_recvall : _recvall = recvall := rfl

theorem unpackBE32_packBE32 (n : Nat) (h : n < 2 ^ 32) :
    unpackBE32 (packBE32 n) = n := by
  simp [unpackBE32, packBE32]
  omega

/-- Each escape produced by `escChar` consists of scalar values when its
source character is one. -/
theorem escChar_scalar (c : Nat) (h : scalarB c = true) :
    (escChar c).all scalarB = true := by
  unfold escChar
  split_ifs with h1 h2 h3 h4 h5 h6 h7 h8
  · decide
  · decide
  · decide
  · decide
  · decide
  · decide
  · decide
  · have d1 : scalarB (hexDig (c / 16)) = true := by
      simp only [hexDig, scalarB]
      split_ifs <;> simp <;> omega
    have d2 : scalarB (hexDig (c % 16)) = true := by
      simp only [hexDig, scalarB]
      split_ifs <;> simp <;> omega
    simp [d1, d2]
    exact ⟨by decide, by decide, by decide⟩
  · simp [h]

/-- Escaped string bodies consist of scalar values whenever the source
string does. -/
theorem escStr_scalar : ∀ s : PyStr, s.all scalarB = true →
    (escStr s).all scalarB = true := by
  intro s
  induction s with
  | nil => intro _; rfl
  | cons c cs ih =>
    intro h
    simp only [List.all_cons, Bool.and_eq_true] at h
    rw [escStr, List.all_append, Bool.and_eq_true]
    exact ⟨escChar_scalar c h.1, ih h.2⟩

theorem natPrint_scalar (n : Nat) : (natPrint n).all scalarB = true := by
  rw [List.all_eq_true]
  intro c hc
  have := natPrint_digits n c hc
  simp [scalarB]
  omega

theorem intPrint_scalar (i : Int) : (intPrint i).all scalarB = true := by
  unfold intPrint
  by_cases h : i < 0
  · rw [if_pos h]
    simp only [List.all_cons, Bool.and_eq_true]
    exact ⟨by decide, natPrint_scalar i.natAbs⟩
  · rw [if_neg h]
    exact natPrint_scalar i.natAbs

mutual
/-- A valid document prints to a string of Unicode scalar values. -/
theorem printJson_scalar : (j : Json) → jvalid j = true →
    (printJson j).all scalarB = true
  | .null => by intro _; decide
  | .bool b => by intro _; cases b <;> decide
  | .int n => by intro _; exact intPrint_scalar n
  | .str s => by
      intro h
      simp only [jvalid] at h
      simp only [printJson, List.all_cons, List.all_append, Bool.and_eq_true]
      exact ⟨by decide, escStr_scalar s h, by decide⟩
  | .arr xs => by
      intro h
      simp only [jvalid] at h
      simp only [printJson, List.all_cons, List.all_append, Bool.and_eq_true]
      exact ⟨by decide, printElems_scalar xs h, by decide⟩
  | .obj kvs => by
      intro h
      simp only [jvalid] at h
      simp only [printJson, List.all_cons, List.all_append, Bool.and_eq_true]
      exact ⟨by decide, printMembers_scalar kvs h, by decide⟩
termination_by structural j => j
theorem printElems_scalar : (l : JsonList) → lvalid l = true →
    (printElems l).all scalarB = true
  | .nil => by intro _; rfl
  | .cons x .nil => by
      intro h
      simp only [lvalid, Bool.and_eq_true] at h
      simp only [printElems]
      exact printJson_scalar x h.1
  | .cons x (.cons y tl) => by
      intro h
      simp only [lvalid, Bool.and_eq_true] at h
      simp only [printElems, List.all_cons, List.all_append, Bool.and_eq_true]
      refine ⟨printJson_scalar x h.1, by decide, by decide, ?_⟩
      have h2 : lvalid (JsonList.cons y tl) = true := by
        simp only [lvalid, Bool.and_eq_true]
        exact h.2
      exact printElems_scalar (JsonList.cons y tl) h2
termination_by structural l => l
theorem printMembers_scalar : (m : JsonMembers) → mvalid m = true →
    (printMembers m).all scalarB = true
  | .nil => by intro _; rfl
  | .cons k v .nil => by
      intro h
      simp only [mvalid, Bool.and_eq_true] at h
      simp only [printMembers, List.all_cons, List.all_append, Bool.and_eq_true]
      exact ⟨by decide, escStr_scalar k h.1, by decide, by decide, by decide,
        printJson_scalar v h.2.1⟩
  | .cons k v (.cons k2 v2 tl) => by
      intro h
      simp only [mvalid, Bool.and_eq_true] at h
      simp only [printMembers, List.all_cons, List.all_append, Bool.and_eq_true]
      refine ⟨⟨by decide, escStr_scalar k h.1, by decide, by decide, by decide,
        printJson_scalar v h.2.1⟩, by decide, by decide, ?_⟩
      have h2 : mvalid (JsonMembers.cons k2 v2 tl) = true := by
        simp only [mvalid, Bool.and_eq_true]
        exact h.2.2
      exact printMembers_scalar (JsonMembers.cons k2 v2 tl) h2
termination_by structural m => m
end

/-- The frame round trip behind claim C4: writing any valid document
whose encoded body length fits an unsigned 32-bit integer, then reading
the produced byte stream (however many bytes follow it), yields exactly
the original document; and the frame is the 4-byte big-endian length
followed by exactly that many bytes of UTF-8 JSON. -/
theorem recv_msg_send_msg (obj : Json) (hval : jvalid obj = true)
    (hlen : (dumpsBytes obj).length < 2 ^ 32) (extra : PyBytes) :
    ∃ frame, send_msg obj = some frame ∧
      frame = packBE32 (dumpsBytes obj).length ++ dumpsBytes obj ∧
      recv_msg (frame ++ extra) = .ok obj := by
  refine ⟨packBE32 (dumpsBytes obj).length ++ dumpsBytes obj, ?_, rfl, ?_⟩
  · unfold send_msg
    rw [if_pos hlen]
  · unfold recv_msg
    rw [List.append_assoc]
    have hp4 : (packBE32 (dumpsBytes obj).length).length = 4 := rfl
    have h4 : recvall (packBE32 (dumpsBytes obj).length ++ (dumpsBytes obj ++ extra)) 4 =
        .ok (packBE32 (dumpsBytes obj).length) := by
      unfold recvall
      rw [if_pos (by simp [packBE32]), List.take_left' hp4]
    have hdrop : (packBE32 (dumpsBytes obj).length ++ (dumpsBytes obj ++ extra)).drop 4 =
        dumpsBytes obj ++ extra := List.drop_left' hp4
    have hbody : recvall (dumpsBytes obj ++ extra) (dumpsBytes obj).length =
        .ok (dumpsBytes obj) := by
      unfold recvall
      rw [if_pos (by simp), List.take_left' rfl]
    have hdec : utf8Decode (dumpsBytes obj) = some (printJson obj) :=
      utf8Decode_encode _ (printJson_scalar obj hval)
    simp only [h4, hdrop, unpackBE32_packBE32 _ hlen, hbody, hdec, loads_printJson]

example :
    handle_client (.ok ⟨some (str2cp "bogus"), some (str2cp "hi there"), some []⟩)
      (.ok Json.null) =
    { sent := some (errorResponse (str2cp "bad mode")), collaboratorCalled := false,
      connClosed := true } := by decide

example :
    handle_client (.ok ⟨some (str2cp "love"), some (str2cp "hi"), some []⟩)
      (.ok Json.null) =
    { sent := some (errorResponse (str2cp "question too short")),
      collaboratorCalled := false, connClosed := true } := by decide

example :
    handle_client (.ok ⟨some (str2cp "love"), some (str2cp "hi there"), some []⟩)
      (.error ⟨str2cp "RuntimeError", str2cp "CUDA out of memory"⟩) =
    { sent := some (errorResponse (str2cp "RuntimeError: CUDA out of memory")),
      collaboratorCalled := true, connClosed := true } := by decide

theorem winv_init : WInv initWorker := by
  constructor
  · intro _ i h
    exact GPhase.noConfusion h
  · intro i j hi _
    exact absurd hi (by simp [initWorker])

theorem winv_step {s t : WorkerState} (hs : WInv s) (hstep : WStep s t) : WInv t := by
  obtain ⟨hfree, huniq⟩ := hs
  cases hstep with
  | acquire i s h hl =>
    constructor
    · intro hcontra
      simp at hcontra
    · intro a b ha hb
      simp only at ha hb
      by_cases hai : a = i
      · by_cases hbi : b = i
        · rw [hai, hbi]
        · rw [if_neg hbi] at hb
          exact absurd hb (hfree hl b)
      · rw [if_neg hai] at ha
        exact absurd ha (hfree hl a)
  | release i s h =>
    constructor
    · intro _ a ha
      simp only at ha
      by_cases hai : a = i
      · rw [if_pos hai] at ha
        exact GPhase.noConfusion ha
      · rw [if_neg hai] at ha
        exact hai (huniq a i ha h)
    · intro a b ha hb
      simp only at ha hb
      by_cases hai : a = i
      · rw [if_pos hai] at ha
        exact GPhase.noConfusion ha
      · rw [if_neg hai] at ha
        by_cases hbi : b = i
        · rw [if_pos hbi] at hb
          exact GPhase.noConfusion hb
        · rw [if_neg hbi] at hb
          exact huniq a b ha hb

theorem winv_reach {s : WorkerState} (h : WReach s) : WInv s := by
  induction h with
  | init => exact winv_init
  | step _ hstep ih => exact winv_step ih hstep

theorem cleanup_some {jobs : JobsMap} {now ttl : Int} {id : Nat} {j : Job} :
    _cleanup_jobs jobs now ttl id = some j ↔
      jobs id = some j ∧ now - j.created_at ≤ ttl := by
  unfold _cleanup_jobs
  cases hj : jobs id with
  | none => simp
  | some j0 =>
    simp only []
    by_cases hex : now - j0.created_at > ttl
    · rw [if_pos hex]
      constructor
      · intro h
        exact Option.noConfusion h
      · rintro ⟨h1, h2⟩
        cases h1
        omega
    · rw [if_neg hex]
      constructor
      · rintro h
        cases h
        exact ⟨rfl, by omega⟩
      · rintro ⟨h1, _⟩
        exact h1.symm ▸ rfl

theorem do_POST_accepted {jobs : JobsMap} {payload : SubmitPayload} {job_id : Nat}
    {now : Int} (h : (_validate_submit payload).1 = true) :
    do_POST jobs payload job_id now =
      { response :=
          { statusCode := 200
            body := Json.obj (.cons (str2cp "ok") (.bool true)
              (.cons (str2cp "job_id") (.str (natPrint job_id)) .nil)) }
        jobs := fun id => if id = job_id then some (newJob (mkCleanPayload payload) now)
          else _cleanup_jobs jobs now 3600 id
        spawned := some job_id } := by
  unfold do_POST
  rw [if_neg (by rw [h]; simp)]

theorem do_POST_rejected {jobs : JobsMap} {payload : SubmitPayload} {job_id : Nat}
    {now : Int} (h : (_validate_submit payload).1 = false) :
    do_POST jobs payload job_id now =
      { response := { statusCode := 400
                      body := errorResponse (_validate_submit payload).2 }
        jobs := jobs
        spawned := none } := by
  unfold do_POST
  rw [if_pos h]

theorem finv_init : FInv initFront := by
  refine ⟨?_, ?_, ?_⟩
  · intro id j h
    exact Option.noConfusion h
  · intro id ph h
    exact Option.noConfusion h
  · intro id j h
    exact Option.noConfusion h

theorem finv_step {s t : FrontState} {l : FLabel} (hs : FInv s) (hstep : FStep s l t) :
    FInv t := by
  obtain ⟨h1, h2, h3⟩ := hs
  cases hstep with
  | submit payload now s hok =>
    refine ⟨?_, ?_, ?_⟩
    · intro id j hid
      simp only [do_POST_accepted hok] at hid
      by_cases he : id = s.nextId
      · show id < s.nextId + 1
        omega
      · rw [if_neg he] at hid
        have := h1 id j (cleanup_some.mp hid).1
        show id < s.nextId + 1
        omega
    · intro id ph hid
      simp only at hid
      by_cases he : id = s.nextId
      · show id < s.nextId + 1
        omega
      · rw [if_neg he] at hid
        have := h2 id ph hid
        show id < s.nextId + 1
        omega
    · intro id j hid
      simp only [do_POST_accepted hok] at hid
      by_cases he : id = s.nextId
      · rw [if_pos he] at hid
        cases hid
        exact ⟨.spawned, by simp [he], rfl⟩
      · rw [if_neg he] at hid
        obtain ⟨ph, htask, hst⟩ := h3 id j (cleanup_some.mp hid).1
        exact ⟨ph, by simp only [if_neg he]; exact htask, hst⟩
  | submitRejected payload now s hbad =>
    exact ⟨h1, h2, h3⟩
  | phase1 id t1 s h =>
    cases hjob : s.jobs id with
    | none =>
      have hsame : (run_tarot_job_phase1 s.jobs id t1).1 = s.jobs := by
        unfold run_tarot_job_phase1
        rw [hjob]
      refine ⟨?_, ?_, ?_⟩
      · intro a ja ha
        simp only [hsame] at ha
        exact h1 a ja ha
      · intro a ph ha
        simp only at ha
        by_cases hai : a = id
        · subst hai
          exact h2 a .spawned h
        · rw [if_neg hai] at ha
          exact h2 a ph ha
      · intro a ja ha
        simp only [hsame] at ha
        obtain ⟨ph, htask, hst⟩ := h3 a ja ha
        by_cases hai : a = id
        · subst hai
          rw [h] at htask
          cases htask
          exact absurd ha (by rw [hjob]; exact fun hc => Option.noConfusion hc)
        · exact ⟨ph, by simp only [if_neg hai]; exact htask, hst⟩
    | some job =>
      have hform : (run_tarot_job_phase1 s.jobs id t1).1 =
          fun a => if a = id then
            some { job with status := .running, started_at := some t1 }
          else s.jobs a := by
        unfold run_tarot_job_phase1
        rw [hjob]
      refine ⟨?_, ?_, ?_⟩
      · intro a ja ha
        simp only [hform] at ha
        by_cases hai : a = id
        · subst hai
          exact h2 a .spawned h
        · rw [if_neg hai] at ha
          exact h1 a ja ha
      · intro a ph ha
        simp only at ha
        by_cases hai : a = id
        · subst hai
          exact h2 a .spawned h
        · rw [if_neg hai] at ha
          exact h2 a ph ha
      · intro a ja ha
        simp only [hform] at ha
        by_cases hai : a = id
        · subst hai
          rw [if_pos rfl] at ha
          cases ha
          exact ⟨.calledRpc, by simp, rfl⟩
        · rw [if_neg hai] at ha
          obtain ⟨ph, htask, hst⟩ := h3 a ja ha
          exact ⟨ph, by simp only [if_neg hai]; exact htask, hst⟩
  | phase2 id result t2 s h =>
    cases hjob : s.jobs id with
    | none =>
      have hsame : run_tarot_job_phase2 s.jobs id result t2 = s.jobs := by
        unfold run_tarot_job_phase2
        rw [hjob]
      refine ⟨?_, ?_, ?_⟩
      · intro a ja ha
        simp only [hsame] at ha
        exact h1 a ja ha
      · intro a ph ha
        simp only at ha
        by_cases hai : a = id
        · subst hai
          exact h2 a .calledRpc h
        · rw [if_neg hai] at ha
          exact h2 a ph ha
      · intro a ja ha
        simp only [hsame] at ha
        obtain ⟨ph, htask, hst⟩ := h3 a ja ha
        by_cases hai : a = id
        · subst hai
          rw [h] at htask
          cases htask
          exact absurd ha (by rw [hjob]; exact fun hc => Option.noConfusion hc)
        · exact ⟨ph, by simp only [if_neg hai]; exact htask, hst⟩
    | some job =>
      have hform : run_tarot_job_phase2 s.jobs id result t2 =
          fun a => if a = id then
            some { job with status := .done, result := some result, finished_at := some t2 }
          else s.jobs a := by
        unfold run_tarot_job_phase2
        rw [hjob]
      refine ⟨?_, ?_, ?_⟩
      · intro a ja ha
        simp only [hform] at ha
        by_cases hai : a = id
        · subst hai
          exact h2 a .calledRpc h
        · rw [if_neg hai] at ha
          exact h1 a ja ha
      · intro a ph ha
        simp only at ha
        by_cases hai : a = id
        · subst hai
          exact h2 a .calledRpc h
        · rw [if_neg hai] at ha
          exact h2 a ph ha
      · intro a ja ha
        simp only [hform] at ha
        by_cases hai : a = id
        · subst hai
          rw [if_pos rfl] at ha
          cases ha
          exact ⟨.finishedW, by simp, rfl⟩
        · rw [if_neg hai] at ha
          obtain ⟨ph, htask, hst⟩ := h3 a ja ha
          exact ⟨ph, by simp only [if_neg hai]; exact htask, hst⟩

theorem finv_reach {s : FrontState} (h : FReach s) : FInv s := by
  induction h with
  | init => exact finv_init
  | step _ hstep ih => exact finv_step ih hstep

theorem fstep_monotone {s t : FrontState} {l : FLabel} (hreach : FReach s)
    (hstep : FStep s l t) (id : Nat) (j j' : Job)
    (hj : s.jobs id = some j) (hj' : t.jobs id = some j') :
    statusRank j.status ≤ statusRank j'.status ∧
    statusRank j'.status ≤ statusRank j.status + 1 ∧
    (j.status = .done → j' = j) := by
  obtain ⟨h1, h2, h3⟩ := finv_reach hreach
  cases hstep with
  | submit payload now s hok =>
    simp only [do_POST_accepted hok] at hj'
    have hlt := h1 id j hj
    rw [if_neg (by omega)] at hj'
    have := (cleanup_some.mp hj').1
    rw [hj] at this
    cases this
    exact ⟨le_refl _, by omega, fun _ => rfl⟩
  | submitRejected payload now s hbad =>
    rw [hj] at hj'
    cases hj'
    exact ⟨le_refl _, by omega, fun _ => rfl⟩
  | phase1 id0 t1 s h =>
    cases hjob : s.jobs id0 with
    | none =>
      have hsame : (run_tarot_job_phase1 s.jobs id0 t1).1 = s.jobs := by
        unfold run_tarot_job_phase1
        rw [hjob]
      simp only [hsame] at hj'
      rw [hj] at hj'
      cases hj'
      exact ⟨le_refl _, by omega, fun _ => rfl⟩
    | some job =>
      have hform : (run_tarot_job_phase1 s.jobs id0 t1).1 =
          fun a => if a = id0 then
            some { job with status := .running, started_at := some t1 }
          else s.jobs a := by
        unfold run_tarot_job_phase1
        rw [hjob]
      simp only [hform] at hj'
      by_cases hai : id = id0
      · subst hai
        rw [if_pos rfl] at hj'
        cases hj'
        rw [hj] at hjob
        cases hjob
        obtain ⟨ph, htask, hst⟩ := h3 id j hj
        rw [h] at htask
        cases htask
        have hpend : j.status = .pending := hst.symm
        rw [hpend]
        exact ⟨by simp [statusRank], by simp [statusRank],
          fun hc => JobStatus.noConfusion hc⟩
      · rw [if_neg hai] at hj'
        rw [hj] at hj'
        cases hj'
        exact ⟨le_refl _, by omega, fun _ => rfl⟩
  | phase2 id0 result t2 s h =>
    cases hjob : s.jobs id0 with
    | none =>
      have hsame : run_tarot_job_phase2 s.jobs id0 result t2 = s.jobs := by
        unfold run_tarot_job_phase2
        rw [hjob]
      simp only [hsame] at hj'
      rw [hj] at hj'
      cases hj'
      exact ⟨le_refl _, by omega, fun _ => rfl⟩
    | some job =>
      have hform : run_tarot_job_phase2 s.jobs id0 result t2 =
          fun a => if a = id0 then
            some { job with status := .done, result := some result, finished_at := some t2 }
          else s.jobs a := by
        unfold run_tarot_job_phase2
        rw [hjob]
      simp only [hform] at hj'
      by_cases hai : id = id0
      · subst hai
        rw [if_pos rfl] at hj'
        cases hj'
        rw [hj] at hjob
        cases hjob
        obtain ⟨ph, htask, hst⟩ := h3 id j hj
        rw [h] at htask
        cases htask
        have hrun : j.status = .running := hst.symm
        rw [hrun]
        exact ⟨by simp [statusRank], by simp [statusRank],
          fun hc => JobStatus.noConfusion hc⟩
      · rw [if_neg hai] at hj'
        rw [hj] at hj'
        cases hj'
        exact ⟨le_refl _, by omega, fun _ => rfl⟩

theorem fstep_removal {s t : FrontState} {l : FLabel} (hreach : FReach s)
    (hstep : FStep s l t) (id : Nat) (j : Job)
    (hj : s.jobs id = some j) (hgone : t.jobs id = none) :
    ∃ p now, l = FLabel.submit p now ∧ now - j.created_at > 3600 := by
  obtain ⟨h1, h2, h3⟩ := finv_reach hreach
  cases hstep with
  | submit payload now s hok =>
    refine ⟨payload, now, rfl, ?_⟩
    simp only [do_POST_accepted hok] at hgone
    have hlt := h1 id j hj
    rw [if_neg (by omega)] at hgone
    unfold _cleanup_jobs at hgone
    rw [hj] at hgone
    simp only [] at hgone
    by_cases hex : now - j.created_at > 3600
    · exact hex
    · rw [if_neg hex] at hgone
      exact absurd hgone (by simp)
  | submitRejected payload now s hbad =>
    rw [hj] at hgone
    exact absurd hgone (by simp)
  | phase1 id0 t1 s h =>
    exfalso
    cases hjob : s.jobs id0 with
    | none =>
      have hsame : (run_tarot_job_phase1 s.jobs id0 t1).1 = s.jobs := by
        unfold run_tarot_job_phase1
        rw [hjob]
      simp only [hsame] at hgone
      rw [hj] at hgone
      exact Option.noConfusion hgone
    | some job =>
      have hform : (run_tarot_job_phase1 s.jobs id0 t1).1 =
          fun a => if a = id0 then
            some { job with status := .running, started_at := some t1 }
          else s.jobs a := by
        unfold run_tarot_job_phase1
        rw [hjob]
      simp only [hform] at hgone
      by_cases hai : id = id0
      · rw [if_pos hai] at hgone
        exact Option.noConfusion hgone
      · rw [if_neg hai] at hgone
        rw [hj] at hgone
        exact Option.noConfusion hgone
  | phase2 id0 result t2 s h =>
    exfalso
    cases hjob : s.jobs id0 with
    | none =>
      have hsame : run_tarot_job_phase2 s.jobs id0 result t2 = s.jobs := by
        unfold run_tarot_job_phase2
        rw [hjob]
      simp only [hsame] at hgone
      rw [hj] at hgone
      exact Option.noConfusion hgone
    | some job =>
      have hform : run_tarot_job_phase2 s.jobs id0 result t2 =
          fun a => if a = id0 then
            some { job with status := .done, result := some result, finished_at := some t2 }
          else s.jobs a := by
        unfold run_tarot_job_phase2
        rw [hjob]
      simp only [hform] at hgone
      by_cases hai : id = id0
      · rw [if_pos hai] at hgone
        exact Option.noConfusion hgone
      · rw [if_neg hai] at hgone
        rw [hj] at hgone
        exact Option.noConfusion hgone

theorem freach_follow {s t : FrontState} (hs : FReach s) (h : FFollow s t) :
    FReach t := by
  induction h with
  | refl => exact hs
  | tail _ hstep ih => exact FReach.step ih hstep

theorem nextId_mono_step {s t : FrontState} {l : FLabel} (h : FStep s l t) :
    s.nextId ≤ t.nextId := by
  cases h <;> simp

theorem nextId_mono_follow {s t : FrontState} (h : FFollow s t) :
    s.nextId ≤ t.nextId := by
  induction h with
  | refl => exact le_refl _
  | tail _ hstep ih => exact le_trans ih (nextId_mono_step hstep)

/-- One step backwards: a record present after a step was already
present (never freshly created under an old id), with a status no
further along, and a `done` record passes through steps unchanged. -/
theorem fstep_back {u t : FrontState} {l : FLabel} {id : Nat} {j' : Job}
    (hinv : FInv u) (hstep : FStep u l t) (hid : id < u.nextId)
    (hj' : t.jobs id = some j') :
    ∃ j'', u.jobs id = some j'' ∧
      statusRank j''.status ≤ statusRank j'.status ∧
      (j''.status = JobStatus.done → j' = j'') := by
  obtain ⟨h1, h2, h3⟩ := hinv
  cases hstep with
  | submit payload now u hok =>
    simp only [do_POST_accepted hok] at hj'
    rw [if_neg (by omega)] at hj'
    exact ⟨j', (cleanup_some.mp hj').1, le_refl _, fun _ => rfl⟩
  | submitRejected payload now u hbad =>
    exact ⟨j', hj', le_refl _, fun _ => rfl⟩
  | phase1 id0 t1 u h =>
    cases hjob : u.jobs id0 with
    | none =>
      have hsame : (run_tarot_job_phase1 u.jobs id0 t1).1 = u.jobs := by
        unfold run_tarot_job_phase1
        rw [hjob]
      simp only [hsame] at hj'
      exact ⟨j', hj', le_refl _, fun _ => rfl⟩
    | some job =>
      have hform : (run_tarot_job_phase1 u.jobs id0 t1).1 =
          fun a => if a = id0 then
            some { job with status := .running, started_at := some t1 }
          else u.jobs a := by
        unfold run_tarot_job_phase1
        rw [hjob]
      simp only [hform] at hj'
      by_cases hai : id = id0
      · subst hai
        rw [if_pos rfl] at hj'
        cases hj'
        obtain ⟨ph, htask, hst⟩ := h3 id job hjob
        rw [h] at htask
        cases htask
        refine ⟨job, hjob, ?_, ?_⟩
        · rw [← hst]
          simp [phaseStatus, statusRank]
        · intro hdone
          rw [← hst] at hdone
          exact absurd hdone (by simp [phaseStatus])
      · rw [if_neg hai] at hj'
        exact ⟨j', hj', le_refl _, fun _ => rfl⟩
  | phase2 id0 result t2 u h =>
    cases hjob : u.jobs id0 with
    | none =>
      have hsame : run_tarot_job_phase2 u.jobs id0 result t2 = u.jobs := by
        unfold run_tarot_job_phase2
        rw [hjob]
      simp only [hsame] at hj'
      exact ⟨j', hj', le_refl _, fun _ => rfl⟩
    | some job =>
      have hform : run_tarot_job_phase2 u.jobs id0 result t2 =
          fun a => if a = id0 then
            some { job with status := .done, result := some result, finished_at := some t2 }
          else u.jobs a := by
        unfold run_tarot_job_phase2
        rw [hjob]
      simp only [hform] at hj'
      by_cases hai : id = id0
      · subst hai
        rw [if_pos rfl] at hj'
        cases hj'
        obtain ⟨ph, htask, hst⟩ := h3 id job hjob
        rw [h] at htask
        cases htask
        refine ⟨job, hjob, ?_, ?_⟩
        · rw [← hst]
          simp [phaseStatus, statusRank]
        · intro hdone
          rw [← hst] at hdone
          exact absurd hdone (by simp [phaseStatus])
      · rw [if_neg hai] at hj'
        exact ⟨j', hj', le_refl _, fun _ => rfl⟩

/-- Monotonicity over any number of steps: a poller can never see a
record move backwards, and a `done` record never changes again. -/
theorem ffollow_monotone {s t : FrontState} (hreach : FReach s)
    (hfollow : FFollow s t) (id : Nat) (j j' : Job)
    (hj : s.jobs id = some j) (hj' : t.jobs id = some j') :
    statusRank j.status ≤ statusRank j'.status ∧
    (j.status = JobStatus.done → j' = j) := by
  induction hfollow generalizing j' with
  | refl =>
    rw [hj] at hj'
    cases hj'
    exact ⟨le_refl _, fun _ => rfl⟩
  | @tail s2 u l hfol hstep ih =>
    have hreach_u : FReach s2 := freach_follow hreach hfol
    have hid : id < s2.nextId := by
      have hlt := (finv_reach hreach).1 id j hj
      have := nextId_mono_follow hfol
      omega
    obtain ⟨j'', hj'', hrank, hdone⟩ :=
      fstep_back (finv_reach hreach_u) hstep hid hj'
    obtain ⟨hrank2, hdone2⟩ := ih j'' hj''
    refine ⟨le_trans hrank2 hrank, ?_⟩
    intro hd
    have he := hdone2 hd
    rw [← he]
    exact hdone (by rw [he, hd])

theorem validate_iff (payload : SubmitPayload) :
    (_validate_submit payload).1 = true ↔
      (pyStrip (fieldOr payload.mode) ∈ ALLOWED_MODES ∧
       3 ≤ (pyStrip (fieldOr payload.question)).length ∧
       (pyStrip (fieldOr payload.question)).length ≤ 5000 ∧
       (pyStrip (fieldOr payload.information)).length ≤ 5000) := by
  simp only [_validate_submit]
  by_cases h1 : pyStrip (fieldOr payload.mode) ∈ ALLOWED_MODES
  · rw [if_neg (fun hn => hn h1)]
    by_cases h2 : (pyStrip (fieldOr payload.question)).length < 3
    · rw [if_pos h2]
      constructor
      · intro hc
        exact absurd hc (by simp)
      · rintro ⟨-, hq, -, -⟩
        omega
    · rw [if_neg h2]
      by_cases h3 : (pyStrip (fieldOr payload.question)).length > 5000 ∨
          (pyStrip (fieldOr payload.information)).length > 5000
      · rw [if_pos h3]
        constructor
        · intro hc
          exact absurd hc (by simp)
        · rintro ⟨-, -, hq, hi⟩
          omega
      · rw [if_neg h3]
        constructor
        · intro _
          exact ⟨h1, by omega, by omega, by omega⟩
        · intro _
          rfl
  · rw [if_pos h1]
    constructor
    · intro hc
      exact absurd hc (by simp)
    · rintro ⟨hm, -, -, -⟩
      exact absurd hm h1

theorem validate_mode_bad {payload : SubmitPayload}
    (h : pyStrip (fieldOr payload.mode) ∉ ALLOWED_MODES) :
    _validate_submit payload =
      (false, str2cp "mode must be one of: general/love/career/money") := by
  simp only [_validate_submit]
  rw [if_pos h]

/-! ## The claims -/
/-- C1: For every set of concurrent inference requests (any number of
simultaneous RPC connections to the worker), at most one inference call
is in flight against the shared model at any instant, process-wide: in
every reachable state of the worker, no two threads are simultaneously
inside the `model.generate` body, because every call to generate runs
while holding `_GENERATE_LOCK` — indeed whenever the lock is free,
nobody is generating. -/
theorem claim_C1_generate_mutual_exclusion (s : WorkerState) (h : WReach s) :
    (∀ i j : Nat, s.threads i = GPhase.generating →
      s.threads j = GPhase.generating → i = j) ∧
    (s.lockHeld = false → ∀ i : Nat, s.threads i ≠ GPhase.generating) :=
  ⟨(winv_reach h).2, (winv_reach h).1⟩

theorem claim_C1_witness : (0 : Nat) = 0 :=
  (claim_C1_generate_mutual_exclusion _
    (WReach.step WReach.init (WStep.acquire 0 initWorker rfl rfl))).1 0 0 rfl rfl

/-- C4: For every JSON document (of the value shapes this program
exchanges, with all strings made of Unicode scalar values) whose UTF-8
JSON encoding fits an unsigned 32-bit length, reading a frame produced
by writing that document reproduces an equal document — including
multi-byte non-ASCII text: `send_msg` emits the 4-byte big-endian length
`L` of the UTF-8 JSON body followed by exactly those `L` bytes, and
`recv_msg` decodes exactly the original document back regardless of any
further bytes on the stream. -/
theorem claim_C4_frame_round_trip (obj : Json) (hval : jvalid obj = true)
    (hlen : (dumpsBytes obj).length < 2 ^ 32) (extra : PyBytes) :
    ∃ frame, send_msg obj = some frame ∧
      frame = packBE32 (dumpsBytes obj).length ++ dumpsBytes obj ∧
      frame.length = 4 + (dumpsBytes obj).length ∧
      recv_msg (frame ++ extra) = .ok obj := by
  obtain ⟨frame, hsend, hshape, hread⟩ := recv_msg_send_msg obj hval hlen extra
  refine ⟨frame, hsend, hshape, ?_, hread⟩
  rw [hshape]
  simp [packBE32]
  omega

theorem claim_C4_witness :
    ∃ frame, send_msg wObj = some frame ∧
      frame = packBE32 (dumpsBytes wObj).length ++ dumpsBytes wObj ∧
      frame.length = 4 + (dumpsBytes wObj).length ∧
      recv_msg (frame ++ [0]) = .ok wObj :=
  claim_C4_frame_round_trip wObj (by decide) (by decide) [0]

/-- C6: For every request frame the RPC server receives, if the
(stripped) mode field is not in the fixed enumerated set the server
responds exactly `{ok:false, error:"bad mode"}`, and otherwise if the
(stripped) question field is shorter than 3 characters it responds
exactly `{ok:false, error:"question too short"}`; in both invalid cases
the Inference Collaborator is never invoked. -/
theorem claim_C6_invalid_requests_short_circuit (r : RpcRequest)
    (infer : Except PyExc Json) :
    (pyStrip (fieldOr r.mode) ∉ ALLOWED_MODES →
      handle_client (.ok r) infer =
        { sent := some (errorResponse (str2cp "bad mode")),
          collaboratorCalled := false, connClosed := true }) ∧
    (pyStrip (fieldOr r.mode) ∈ ALLOWED_MODES →
      (pyStrip (fieldOr r.question)).length < 3 →
      handle_client (.ok r) infer =
        { sent := some (errorResponse (str2cp "question too short")),
          collaboratorCalled := false, connClosed := true }) := by
  constructor
  · intro hm
    simp only [handle_client]
    rw [if_pos hm]
  · intro hm hq
    simp only [handle_client]
    rw [if_neg (fun hn => hn hm), if_pos hq]

theorem claim_C6_witness :
    handle_client (.ok wReqBad) (.ok Json.null) =
      { sent := some (errorResponse (str2cp "bad mode")),
        collaboratorCalled := false, connClosed := true } :=
  (claim_C6_invalid_requests_short_circuit wReqBad (.ok Json.null)).1 (by decide)

/-- C7: For every accepted RPC connection, any exception raised while
handling it — by `recv_msg` on a bad frame or by the Inference
Collaborator — is caught at the connection boundary and converted to the
response `{ok:false, error:"<kind>: <message>"}`, and the connection is
closed on every path (success, validation failure, or exception), as the
`finally` block guarantees. -/
theorem claim_C7_exceptions_converted_connection_closed
    (req : Except PyExc RpcRequest) (infer : Except PyExc Json) :
    (handle_client req infer).connClosed = true ∧
    (∀ e, req = .error e →
      (handle_client req infer).sent = some (errorResponse (excText e))) ∧
    (∀ r e, req = .ok r → infer = .error e →
      pyStrip (fieldOr r.mode) ∈ ALLOWED_MODES →
      3 ≤ (pyStrip (fieldOr r.question)).length →
      (handle_client req infer).sent = some (errorResponse (excText e))) := by
  refine ⟨rfl, ?_, ?_⟩
  · intro e he
    subst he
    rfl
  · intro r e hr he hm hq
    subst hr
    subst he
    simp only [handle_client]
    rw [if_neg (fun hn => hn hm), if_neg (by omega)]

theorem claim_C7_witness :
    (handle_client (.ok wReqGood) (.error wExc)).connClosed = true ∧
    (handle_client (.ok wReqGood) (.error wExc)).sent =
      some (errorResponse (excText wExc)) :=
  ⟨(claim_C7_exceptions_converted_connection_closed (.ok wReqGood) (.error wExc)).1,
   (claim_C7_exceptions_converted_connection_closed (.ok wReqGood) (.error wExc)).2.2
     wReqGood wExc rfl rfl (by decide) (by decide)⟩

/-- C2: For every job id, the status only moves forward through
pending → running → done.  Over any interval of the front door's
execution (any number of interleaved steps), a record's status rank
never decreases — so a poller that has observed `running` never later
observes `pending` — and once a record is `done` it never changes again;
moreover no single step ever advances a record by more than one stage,
so no transition is skipped. -/
theorem claim_C2_status_monotone :
    (∀ (s t : FrontState) (id : Nat) (j j' : Job), FReach s → FFollow s t →
      s.jobs id = some j → t.jobs id = some j' →
      statusRank j.status ≤ statusRank j'.status ∧
      (j.status = JobStatus.done → j' = j)) ∧
    (∀ (s t : FrontState) (l : FLabel) (id : Nat) (j j' : Job), FReach s →
      FStep s l t → s.jobs id = some j → t.jobs id = some j' →
      statusRank j'.status ≤ statusRank j.status + 1) :=
  ⟨fun _ _ id j j' hr hf hj hj' => ffollow_monotone hr hf id j j' hj hj',
   fun _ _ _ id j j' hr hs hj hj' => (fstep_monotone hr hs id j j' hj hj').2.1⟩

theorem claim_C2_witness :
    statusRank wJob0.status ≤ statusRank wJob1.status ∧
    (wJob0.status = JobStatus.done → wJob1 = wJob0) :=
  claim_C2_status_monotone.1 _ _ 0 wJob0 wJob1
    (FReach.step FReach.init (FStep.submit wPayload 0 initFront (by decide)))
    (FFollow.tail (FFollow.refl _) (FStep.phase1 0 5 _ rfl))
    (by decide) (by decide)

/-- C3: For every job the background worker picks up, `run_tarot_job`
marks it running (recording `started_at`), makes its one RPC call, and
marks it done exactly once with a result: on RPC success the response,
and on any RPC failure the synthesized record
`{ok:false, error:"rpc failed: <kind>: <message>"}` — so the failure is
converted rather than propagated (the function is total in the RPC
outcome) and the job is never left stuck in `running`; no other record
is touched, and if the job was already evicted the worker is a no-op. -/
theorem claim_C3_worker_terminates_job (jobs : JobsMap) (job_id : Nat) (job : Job)
    (rpc : Except PyExc Json) (t1 t2 : Int) (hjob : jobs job_id = some job) :
    (run_tarot_job jobs job_id rpc t1 t2 job_id =
      some { status := JobStatus.done, payload := job.payload,
             result := some (rpcResultJson rpc), created_at := job.created_at,
             started_at := some t1, finished_at := some t2 }) ∧
    (∀ other, other ≠ job_id →
      run_tarot_job jobs job_id rpc t1 t2 other = jobs other) ∧
    (∀ e : PyExc, rpcResultJson (.error e) =
      errorResponse (str2cp "rpc failed: " ++ e.kind ++ str2cp ": " ++ e.msg)) ∧
    (∀ e : PyExc, ∃ m, rpcResultJson (.error e) = Json.obj m ∧
      jGet m (str2cp "ok") = some (Json.bool false) ∧
      jGet m (str2cp "error") =
        some (Json.str (str2cp "rpc failed: " ++ e.kind ++ str2cp ": " ++ e.msg))) ∧
    (∀ jobs0 : JobsMap, jobs0 job_id = none →
      run_tarot_job jobs0 job_id rpc t1 t2 = jobs0) := by
  have hshape : ∀ e : PyExc, rpcResultJson (.error e) =
      errorResponse (str2cp "rpc failed: " ++ e.kind ++ str2cp ": " ++ e.msg) := by
    intro e
    simp only [rpcResultJson, rpcFailureResult, excText]
    simp [List.append_assoc]
  refine ⟨?_, ?_, hshape, ?_, ?_⟩
  · unfold run_tarot_job run_tarot_job_phase1 run_tarot_job_phase2
    rw [hjob]
    cases rpc with
    | ok r => simp [rpcResultJson]
    | error e => simp [rpcResultJson]
  · intro other hother
    unfold run_tarot_job run_tarot_job_phase1 run_tarot_job_phase2
    rw [hjob]
    cases rpc with
    | ok r => simp [hother]
    | error e => simp [hother]
  · intro e
    refine ⟨JsonMembers.cons (str2cp "ok") (Json.bool false)
      (JsonMembers.cons (str2cp "error")
        (Json.str (str2cp "rpc failed: " ++ e.kind ++ str2cp ": " ++ e.msg))
        JsonMembers.nil), ?_, ?_, ?_⟩
    · rw [hshape e]
      rfl
    · simp [jGet]
    · simp [jGet]
      decide
  · intro jobs0 h0
    unfold run_tarot_job run_tarot_job_phase1
    rw [h0]

theorem claim_C3_witness :
    run_tarot_job wJobs 0 (.error wExc2) 5 9 0 =
      some { status := JobStatus.done, payload := wJob0.payload,
             result := some (rpcResultJson (.error wExc2)),
             created_at := wJob0.created_at,
             started_at := some 5, finished_at := some 9 } :=
  (claim_C3_worker_terminates_job wJobs 0 wJob0 (.error wExc2) 5 9 (by decide)).1

theorem recv_msg_short_body (L : Nat) (body : PyBytes) (hb : body.length < L)
    (hL : L < 2 ^ 32) :
    recv_msg (packBE32 L ++ body) = .error (str2cp "socket closed") := by
  unfold recv_msg
  have hp4 : (packBE32 L).length = 4 := rfl
  have h4 : recvall (packBE32 L ++ body) 4 = .ok (packBE32 L) := by
    unfold recvall
    rw [if_pos (by simp [packBE32]), List.take_left' hp4]
  have hdrop : (packBE32 L ++ body).drop 4 = body := List.drop_left' hp4
  have hbody : recvall body L = .error (str2cp "socket closed") := by
    unfold recvall
    rw [if_neg (by omega)]
  simp only [h4, hdrop, unpackBE32_packBE32 _ hL, hbody]

theorem recv_msg_full_body (body : PyBytes) (hlen : body.length < 2 ^ 32) :
    recv_msg (packBE32 body.length ++ body) =
      (match utf8Decode body with
       | none => .error (str2cp "unicode decode error")
       | some s => loads s) := by
  unfold recv_msg
  have hp4 : (packBE32 body.length).length = 4 := rfl
  have h4 : recvall (packBE32 body.length ++ body) 4 = .ok (packBE32 body.length) := by
    unfold recvall
    rw [if_pos (by simp [packBE32]), List.take_left' hp4]
  have hdrop : (packBE32 body.length ++ body).drop 4 = body := List.drop_left' hp4
  have hbody : recvall body body.length = .ok body := by
    unfold recvall
    rw [if_pos (le_refl _), List.take_length]
  simp only [h4, hdrop, unpackBE32_packBE32 _ hlen, hbody]

/-- C8: On either end (`recvall` in `rpc_server.py`, its verbatim copy
`_recvall` in `local_web.py`), if the connection closes before the
expected byte count arrives, the read fails with the transport error
`ConnectionError("socket closed")` rather than hanging or returning
partial or garbage data — in particular a frame delivering only the
4-byte length prefix with no body, or a truncated body; with enough
bytes the read returns exactly the first `n` bytes.  `recv_msg` also
fails when the body does not parse as JSON. -/
theorem claim_C8_truncated_reads_fail :
    (∀ (stream : PyBytes) (n : Nat), stream.length < n →
      recvall stream n = .error (str2cp "socket closed")) ∧
    (∀ (stream : PyBytes) (n : Nat), n ≤ stream.length →
      recvall stream n = .ok (stream.take n)) ∧
    _recvall = recvall ∧
    (∀ L : Nat, 0 < L → L < 2 ^ 32 →
      recv_msg (packBE32 L) = .error (str2cp "socket closed")) ∧
    (∀ (L : Nat) (body : PyBytes), body.length < L → L < 2 ^ 32 →
      recv_msg (packBE32 L ++ body) = .error (str2cp "socket closed")) ∧
    (∀ (body : PyBytes) (s : PyStr) (msg : PyStr), body.length < 2 ^ 32 →
      utf8Decode body = some s → loads s = .error msg →
      recv_msg (packBE32 body.length ++ body) = .error msg) := by
  refine ⟨?_, ?_, rfl, ?_, ?_, ?_⟩
  · intro stream n h
    unfold recvall
    rw [if_neg (by omega)]
  · intro stream n h
    unfold recvall
    rw [if_pos h]
  · intro L h0 hL
    have := recv_msg_short_body L [] (by simpa using h0) hL
    simpa using this
  · intro L body hb hL
    exact recv_msg_short_body L body hb hL
  · intro body s msg hlen hdec hparse
    rw [recv_msg_full_body body hlen, hdec]
    exact hparse

theorem claim_C8_witness :
    recvall [104, 105] 4 = .error (str2cp "socket closed") ∧
    recv_msg (packBE32 5) = .error (str2cp "socket closed") ∧
    recv_msg (packBE32 3 ++ str2cp "wat") = .error (str2cp "Expecting value") :=
  ⟨claim_C8_truncated_reads_fail.1 [104, 105] 4 (by decide),
   claim_C8_truncated_reads_fail.2.2.2.1 5 (by decide) (by decide),
   claim_C8_truncated_reads_fail.2.2.2.2.2 (str2cp "wat") (str2cp "wat")
     (str2cp "Expecting value") (by decide) (by decide) (by decide)⟩

/-- C5: For every submission payload, `do_POST` accepts it exactly when
the (stripped, per the code and claim C10) mode is one of
general/love/career/money, the stripped question length lies in
[3, 5000], and the stripped information length is at most 5000.  On
acceptance it responds `200 {ok:true, job_id}`, inserts exactly one
`pending` job (every other id is untouched apart from the opportunistic
eviction), and spawns the background worker; on rejection it responds
`400 {ok:false, error}` — with the error
`mode must be one of: general/love/career/money` for an invalid mode —
and creates no job. -/
theorem claim_C5_submit_validation (jobs : JobsMap) (payload : SubmitPayload)
    (job_id : Nat) (now : Int) :
    ((do_POST jobs payload job_id now).response.statusCode = 200 ↔
      (pyStrip (fieldOr payload.mode) ∈ ALLOWED_MODES ∧
       3 ≤ (pyStrip (fieldOr payload.question)).length ∧
       (pyStrip (fieldOr payload.question)).length ≤ 5000 ∧
       (pyStrip (fieldOr payload.information)).length ≤ 5000)) ∧
    ((_validate_submit payload).1 = true →
      (do_POST jobs payload job_id now).response =
        { statusCode := 200
          body := Json.obj (.cons (str2cp "ok") (.bool true)
            (.cons (str2cp "job_id") (.str (natPrint job_id)) .nil)) } ∧
      (do_POST jobs payload job_id now).jobs job_id =
        some (newJob (mkCleanPayload payload) now) ∧
      (newJob (mkCleanPayload payload) now).status = JobStatus.pending ∧
      (∀ id, id ≠ job_id → (do_POST jobs payload job_id now).jobs id =
        _cleanup_jobs jobs now 3600 id) ∧
      (do_POST jobs payload job_id now).spawned = some job_id) ∧
    ((_validate_submit payload).1 = false →
      (do_POST jobs payload job_id now).response =
        { statusCode := 400, body := errorResponse (_validate_submit payload).2 } ∧
      (do_POST jobs payload job_id now).jobs = jobs ∧
      (do_POST jobs payload job_id now).spawned = none) ∧
    (pyStrip (fieldOr payload.mode) ∉ ALLOWED_MODES →
      (do_POST jobs payload job_id now).response =
        { statusCode := 400
          body := errorResponse
            (str2cp "mode must be one of: general/love/career/money") }) := by
  refine ⟨?_, ?_, ?_, ?_⟩
  · cases hb : (_validate_submit payload).1 with
    | true =>
      rw [do_POST_accepted hb]
      constructor
      · intro _
        exact (validate_iff payload).mp hb
      · intro _
        rfl
    | false =>
      rw [do_POST_rejected hb]
      constructor
      · intro hc
        exact absurd hc (by simp)
      · intro hrhs
        have := (validate_iff payload).mpr hrhs
        rw [hb] at this
        exact Bool.noConfusion this
  · intro hv
    rw [do_POST_accepted hv]
    refine ⟨rfl, ?_, rfl, ?_, rfl⟩
    · simp
    · intro id hid
      simp only []
      rw [if_neg hid]
  · intro hv
    rw [do_POST_rejected hv]
    exact ⟨rfl, rfl, rfl⟩
  · intro hm
    have hbad := validate_mode_bad hm
    rw [do_POST_rejected (by rw [hbad])]
    rw [hbad]

theorem claim_C5_witness :
    (do_POST (fun _ => none) wBadPayload 0 0).response =
      { statusCode := 400
        body := errorResponse
          (str2cp "mode must be one of: general/love/career/money") } ∧
    (do_POST (fun _ => none) wBadPayload 0 0).spawned = none :=
  ⟨(claim_C5_submit_validation (fun _ => none) wBadPayload 0 0).2.2.2 (by decide),
   ((claim_C5_submit_validation (fun _ => none) wBadPayload 0 0).2.2.1 (by decide)).2.2⟩

/-- C9: On every accepted submission, and only then, the job store
evicts exactly those records whose age `now - created_at` strictly
exceeds the one-hour retention window (3600 seconds), before inserting
the new pending record; records at or under the window are retained
unchanged, and no other operation of the front door ever removes a
record. -/
theorem claim_C9_eviction_on_submission_only :
    (∀ (jobs : JobsMap) (now ttl : Int) (id : Nat) (j : Job),
      _cleanup_jobs jobs now ttl id = some j ↔
        (jobs id = some j ∧ now - j.created_at ≤ ttl)) ∧
    (∀ (jobs : JobsMap) (payload : SubmitPayload) (job_id : Nat) (now : Int),
      (_validate_submit payload).1 = true →
      (do_POST jobs payload job_id now).jobs =
        fun id => if id = job_id then some (newJob (mkCleanPayload payload) now)
          else _cleanup_jobs jobs now 3600 id) ∧
    (∀ (s t : FrontState) (l : FLabel) (id : Nat) (j : Job), FReach s →
      FStep s l t → s.jobs id = some j → t.jobs id = none →
      ∃ p now, l = FLabel.submit p now ∧ now - j.created_at > 3600) :=
  ⟨fun _ _ _ _ _ => cleanup_some,
   fun jobs payload job_id now h => by rw [do_POST_accepted h],
   fun _ _ _ id j hr hs hj hg => fstep_removal hr hs id j hj hg⟩

theorem claim_C9_witness :
    ∃ p now, FLabel.submit wPayload 4000 = FLabel.submit p now ∧
      now - wJob0.created_at > 3600 :=
  claim_C9_eviction_on_submission_only.2.2 _ _ _ 0 wJob0
    (FReach.step FReach.init (FStep.submit wPayload 0 initFront (by decide)))
    (FStep.submit wPayload 4000 _ (by decide))
    (by decide) (by decide)

/-- C10: Both the front door and the RPC server strip leading and
trailing whitespace from the mode, question, and information fields
before any check: the length bounds are evaluated on the stripped
strings; the stripped strings make up the stored job payload and the
request object sent over the RPC wire; consequently an input whose raw
length satisfies the bounds can be rejected, and the stored payload may
differ from what the client sent. -/
theorem claim_C10_fields_stripped_before_checks :
    (∀ payload : SubmitPayload,
      (_validate_submit payload).1 = true ↔
        (pyStrip (fieldOr payload.mode) ∈ ALLOWED_MODES ∧
         3 ≤ (pyStrip (fieldOr payload.question)).length ∧
         (pyStrip (fieldOr payload.question)).length ≤ 5000 ∧
         (pyStrip (fieldOr payload.information)).length ≤ 5000)) ∧
    (∀ payload : SubmitPayload, mkCleanPayload payload =
      { mode := pyStrip (fieldOr payload.mode)
        question := pyStrip (fieldOr payload.question)
        information := pyStrip (fieldOr payload.information) }) ∧
    (∀ (jobs : JobsMap) (payload : SubmitPayload) (job_id : Nat) (now : Int),
      (_validate_submit payload).1 = true →
      (do_POST jobs payload job_id now).jobs job_id =
        some (newJob (mkCleanPayload payload) now)) ∧
    (∀ p : CleanPayload, rpc_call_tarot_frame p = send_msg (payloadToJson p)) ∧
    (∀ (r : RpcRequest) (infer : Except PyExc Json),
      pyStrip (fieldOr r.mode) ∈ ALLOWED_MODES →
      (pyStrip (fieldOr r.question)).length < 3 →
      (handle_client (.ok r) infer).collaboratorCalled = false) ∧
    (∃ (payload : SubmitPayload) (q : PyStr), payload.question = some q ∧
      3 ≤ q.length ∧ q.length ≤ 5000 ∧
      pyStrip (fieldOr payload.mode) ∈ ALLOWED_MODES ∧
      (fieldOr payload.information).length ≤ 5000 ∧
      (_validate_submit payload).1 = false) ∧
    (∃ (payload : SubmitPayload) (q : PyStr), payload.question = some q ∧
      (_validate_submit payload).1 = true ∧
      (mkCleanPayload payload).question ≠ q) := by
  refine ⟨validate_iff, fun _ => rfl, ?_, fun _ => rfl, ?_, ?_, ?_⟩
  · intro jobs payload job_id now h
    rw [do_POST_accepted h]
    simp
  · intro r infer hm hq
    simp only [handle_client]
    rw [if_neg (fun hn => hn hm), if_pos hq]
  · exact ⟨wPadPayload, str2cp "  a ", rfl, by decide, by decide, by decide,
      by decide, by decide⟩
  · exact ⟨wSpacedPayload, str2cp " will it work out? ", rfl, by decide, by decide⟩

theorem claim_C10_witness :
    (do_POST (fun _ => none) wSpacedPayload 0 0).jobs 0 =
      some (newJob (mkCleanPayload wSpacedPayload) 0) :=
  claim_C10_fields_stripped_before_checks.2.2.1 (fun _ => none) wSpacedPayload 0 0
    (by decide)
